import Mathlib

/-!
Shallow embedding of the mcp-center daemon core (Wangnov/mcp-center) and
verification of the frozen claims about it.

The Rust sources embedded here are:
* `src/crates/mcp-center/src/daemon/host.rs` — `HostService::is_tool_allowed`,
  `HostService::get_custom_description`, `HostService::list_tools`,
  `HostService::call_tool`;
* `src/crates/mcp-center/src/daemon/server_manager.rs` — `ToolEntry::into_tool`,
  `ServerManager::force_refresh_tool_cache`, `ServerManager::call_tool`;
* `src/crates/mcp-center/src/project/mod.rs` — `ProjectRegistry` (load, store,
  delete, find_by_path, ensure_cache_fresh, refresh_cache, cache patching);
* `src/crates/mcp-center/src/config/server.rs` — `ServerDefinition::validate`;
* `src/crates/mcp-center/src/bridge/connect.rs` — `detect_project_path`,
  `probe_markers`.

Rust `HashMap<String, V>` values are modelled as association lists with the
map operations (`get`, `insert` returning the displaced value, `remove`)
spelled out; `Result`/`Option` become `Except`/`Option`.
-/

namespace MCPCenter

/-- Association-list lookup, modelling `HashMap::get`. -/
def lookupA {κ α : Type} [BEq κ] (m : List (κ × α)) (k : κ) : Option α :=
  (m.find? (fun kv => kv.1 == k)).map (·.2)

/-- Association-list update, modelling `HashMap::insert` when the displaced
value is not needed: replace the binding in place if present, else append. -/
def assocSet {κ α : Type} [BEq κ] (m : List (κ × α)) (k : κ) (v : α) :
    List (κ × α) :=
  match m with
  | [] => [(k, v)]
  | kv :: rest =>
      if kv.1 == k then (k, v) :: rest else kv :: assocSet rest k v

/-- Association-list removal, modelling `HashMap::remove` (drops the first
binding of the key). -/
def assocDel {κ α : Type} [BEq κ] (m : List (κ × α)) (k : κ) :
    List (κ × α) :=
  match m with
  | [] => []
  | kv :: rest => if kv.1 == k then rest else kv :: assocDel rest k

/-- `HashMap::insert` proper: returns the displaced value together with the
updated map. -/
def assocInsert {κ α : Type} [BEq κ] (m : List (κ × α)) (k : κ) (v : α) :
    Option α × List (κ × α) :=
  (lookupA m k, assocSet m k v)

/-- Does `l` start with `pat`? (helper for substring containment). -/
def listStartsWith : List Char → List Char → Bool
  | [], _ => true
  | _ :: _, [] => false
  | a :: ps, b :: ls => a == b && listStartsWith ps ls

/-- Does `pat` occur as a contiguous run inside `s`? -/
def listHasRun : List Char → List Char → Bool
  | s, pat =>
      match s with
      | [] => pat.isEmpty
      | _ :: rest => listStartsWith pat s || listHasRun rest pat

/-- Substring containment, modelling Rust `str::contains` with a literal
pattern. -/
def strContains (s pat : String) : Bool :=
  listHasRun s.toList pat.toList

/-- `ToolPermission` from `src/project/mod.rs`: tool-level permission control
for a specific server. -/
inductive ToolPermission : Type
  | all
  | allowList (tools : List String)
  | denyList (tools : List String)
deriving DecidableEq, Repr

/-- `ToolCustomization` from `src/project/mod.rs`. -/
structure ToolCustomization : Type where
  tool_name : String
  description : Option String
deriving DecidableEq, Repr

/-- The fields of `ProjectRecord` (`src/project/mod.rs`) that the daemon core
reads; `allowed_server_tools` is the `HashMap<String, ToolPermission>`. -/
structure ProjectRecord : Type where
  id : String
  path : List String
  allowed_server_ids : List String
  allowed_server_tools : List (String × ToolPermission)
  tool_customizations : List ToolCustomization
deriving DecidableEq, Repr

/-- The ways `ProjectRegistry::load` can fail (`src/project/mod.rs`):
the record is absent from the refreshed cache (`ProjectConfigNotFound`), or
`ensure_cache_fresh` propagates a scan failure — directory read error
(`ReadDirectory`), file read error (`ProjectRead`), or TOML parse error
(`ProjectParse`). -/
inductive LoadError : Type
  | notFound (id : String)
  | readDirectory
  | projectRead
  | projectParse
deriving DecidableEq, Repr

/-- `HostService::is_tool_allowed` (`src/daemon/host.rs` lines 39–74), as a
function of the outcome of the per-request `registry.load`: tool-level
permission for the server decides first; otherwise the server-level list
(empty list allows everything); any load failure allows everything. -/
def is_tool_allowed (loadResult : Except LoadError ProjectRecord)
    (tool_name server_id : String) : Bool :=
  match loadResult with
  | .ok record =>
      match lookupA record.allowed_server_tools server_id with
      | some permission =>
          match permission with
          | .all => true
          | .allowList tools => tools.contains tool_name
          | .denyList tools => !(tools.contains tool_name)
      | none =>
          if record.allowed_server_ids.isEmpty then
            true
          else
            record.allowed_server_ids.contains server_id
  | .error _ => true

/-- `HostService::get_custom_description` (`src/daemon/host.rs` lines 77–90):
first customization whose `tool_name` matches decides; load failure gives
`none`. -/
def get_custom_description (loadResult : Except LoadError ProjectRecord)
    (tool_name : String) : Option String :=
  match loadResult with
  | .ok record =>
      ((record.tool_customizations.find? (fun c => c.tool_name == tool_name)).bind
        (fun c => c.description))
  | .error _ => none

/-- The permission decision exactly as the claim states it, as a function of
whether a record exists for the project (written from the spec sentence, for
comparison with `is_tool_allowed`). -/
def claimedPermissionDecision (record? : Option ProjectRecord)
    (tool_name server_id : String) : Bool :=
  match record? with
  | some record =>
      match lookupA record.allowed_server_tools server_id with
      | some .all => true
      | some (.allowList tools) => tools.contains tool_name
      | some (.denyList tools) => !(tools.contains tool_name)
      | none =>
          if record.allowed_server_ids.isEmpty then true
          else record.allowed_server_ids.contains server_id
  | none => true

/-- The tool descriptor fields the daemon manipulates (`rmcp::model::Tool`):
name and optional description (the input schema is carried along unchanged and
is irrelevant to every claim). -/
structure Tool : Type where
  name : String
  description : Option String
deriving DecidableEq, Repr

/-- `ToolEntry` from `src/daemon/server_manager.rs` lines 36–41. -/
structure ToolEntry : Type where
  server_id : String
  server_name : String
  tool : Tool
deriving DecidableEq, Repr

/-- The provider annotation appended by `ToolEntry::into_tool`
(`src/daemon/server_manager.rs` lines 46–50). -/
def providerNote (server_name server_id : String) : String :=
  "\n[provided by " ++ server_name ++ " (id: " ++ server_id ++ ")]"

/-- `ToolEntry::into_tool` (`src/daemon/server_manager.rs` lines 44–69): append
the provider annotation unless the description already contains the
`[provided by` marker; a missing description becomes a plain provider
sentence. -/
def into_tool (e : ToolEntry) : Tool :=
  let merged :=
    match e.tool.description with
    | some desc =>
        if strContains desc "[provided by" then desc
        else desc ++ providerNote e.server_name e.server_id
    | none => "Provided by " ++ e.server_name ++ " (id: " ++ e.server_id ++ ")."
  { e.tool with description := some merged }

/-- The custom-description override step inside `HostService::list_tools`
(`src/daemon/host.rs` lines 139–144). -/
def applyCustomDescription (loadResult : Except LoadError ProjectRecord)
    (t : Tool) : Tool :=
  match get_custom_description loadResult t.name with
  | some custom_desc => { t with description := some custom_desc }
  | none => t

/-- `HostService::list_tools` (`src/daemon/host.rs` lines 125–157) as a
function of the Server Manager's cached entries and of the per-request record
load: keep the allowed entries, apply the custom description when configured,
and surface `entry.tool` otherwise unchanged. -/
def list_tools (entries : List ToolEntry)
    (loadResult : Except LoadError ProjectRecord) : List Tool :=
  entries.filterMap (fun entry =>
    if is_tool_allowed loadResult entry.tool.name entry.server_id then
      some (applyCustomDescription loadResult entry.tool)
    else
      none)

/-- The `InvalidParams` message built by `HostService::call_tool`
(`src/daemon/host.rs` lines 177–183). -/
def permissionDeniedMessage (tool_name server_id : String) : String :=
  "Tool '" ++ tool_name ++ "' from server '" ++ server_id ++
    "' is not allowed for this project"

/-- What the host decides before touching the Server Manager. -/
inductive HostCallRoute : Type
  | rejected (message : String)
  | delegated (tool_name : String) (arguments : List (String × String))
deriving DecidableEq, Repr

/-- The permission gate of `HostService::call_tool` (`src/daemon/host.rs`
lines 159–197): when the tool resolves in the Server Manager's index
(`get_server_for_tool`), a disallowed tool is rejected with `InvalidParams`;
otherwise the request is delegated to `ServerManager::call_tool` with the
parameters unchanged (also when the index lookup fails: the manager then
reports the error itself). -/
def host_call_tool (tool_index : List (String × String))
    (loadResult : Except LoadError ProjectRecord)
    (tool_name : String) (arguments : List (String × String)) : HostCallRoute :=
  match lookupA tool_index tool_name with
  | some tool_server_id =>
      if is_tool_allowed loadResult tool_name tool_server_id then
        .delegated tool_name arguments
      else
        .rejected (permissionDeniedMessage tool_name tool_server_id)
  | none => .delegated tool_name arguments


/-- Concrete inputs for the C2 witness: a project that allows server `a` but
denies tool `t1` on it, an index holding `t1` and `t2`, and the matching cache
entries. -/
def c2record : ProjectRecord :=
  { id := "p", path := [], allowed_server_ids := ["a"],
    allowed_server_tools := [("a", .denyList ["t1"])],
    tool_customizations := [] }

/-- Tool index for the C2 witness. -/
def c2index : List (String × String) := [("t1", "a"), ("t2", "a")]

/-- Cached entries for the C2 witness. -/
def c2entries : List ToolEntry :=
  [{ server_id := "a", server_name := "A", tool := { name := "t1", description := some "d1" } },
   { server_id := "a", server_name := "A", tool := { name := "t2", description := some "d2" } }]

/-- Concrete input for C4: a cache entry whose upstream description carries no
provider marker. -/
def c4entry : ToolEntry :=
  { server_id := "a", server_name := "Alpha",
    tool := { name := "search", description := some "Searches the web." } }

/-- Project record for C4: everything allowed, nothing customised. -/
def c4record : ProjectRecord :=
  { id := "p", path := [], allowed_server_ids := [],
    allowed_server_tools := [], tool_customizations := [] }


/-- `CallToolRequestParam` (tool name and arguments; the JSON argument object
is abstracted to string pairs, carried through unchanged). -/
structure CallToolRequestParam : Type where
  name : String
  arguments : List (String × String)
deriving DecidableEq, Repr

/-- `CallToolResult` as bubbled by the manager: upstream content and the
`is_error` flag, both untouched by the daemon. -/
structure CallToolResult : Type where
  content : List String
  is_error : Option Bool
deriving DecidableEq, Repr

/-- The MCP error codes the manager and host produce
(`rmcp::ErrorData` constructors used in the sources). -/
inductive McpError : Type
  | methodNotFound
  | invalidParams (message : String)
  | internalError (message : String)
deriving DecidableEq, Repr

/-- An upstream peer: `ManagedServer::call_tool` forwards the parameters to
the peer and yields either its `CallToolResult` or a transport-level failure
(`ServiceError`, abstracted to its display message). -/
def Upstream : Type := CallToolRequestParam → Except String CallToolResult

/-- `ServerManager::call_tool` (`src/daemon/server_manager.rs` lines 217–254),
after the tool cache has been ensured fresh: resolve the server id in the
name→id index (absent → `MethodNotFound`), find the `ManagedServer` (absent →
internal error), forward to its upstream peer and return its result
unchanged; a transport failure surfaces as an internal error carrying the
failure message. -/
def sm_call_tool (tool_index : List (String × String))
    (servers : List (String × Upstream))
    (params : CallToolRequestParam) : Except McpError CallToolResult :=
  match lookupA tool_index params.name with
  | none => .error .methodNotFound
  | some server_id =>
      match lookupA servers server_id with
      | none => .error (.internalError ("tool mapped to missing server " ++ server_id))
      | some upstream =>
          match upstream params with
          | .ok result => .ok result
          | .error err => .error (.internalError err)

/-- The three structures rebuilt by `ServerManager::force_refresh_tool_cache`:
the name→server-id index, the entry cache, and the warnings emitted for
duplicate tool names (tool, first server, second server). -/
structure RefreshOutcome : Type where
  tool_index : List (String × String)
  tool_cache : List ToolEntry
  warnings : List (String × String × String)
deriving DecidableEq, Repr

/-- One iteration of the inner loop of `force_refresh_tool_cache`
(`src/daemon/server_manager.rs` lines 313–328): insert the tool name into the
index — a displaced previous binding is a duplicate and produces one warning
naming both server ids — and push the entry. -/
def refreshToolStep (server_id server_name : String) (st : RefreshOutcome)
    (tool : Tool) : RefreshOutcome :=
  let inserted := assocInsert st.tool_index tool.name server_id
  { tool_index := inserted.2,
    tool_cache := st.tool_cache ++
      [{ server_id := server_id, server_name := server_name, tool := tool }],
    warnings :=
      match inserted.1 with
      | some first_server => st.warnings ++ [(tool.name, first_server, server_id)]
      | none => st.warnings }

/-- `ServerManager::force_refresh_tool_cache` (`src/daemon/server_manager.rs`
lines 298–335) as a function of the server sequence *in the order the `HashMap`
iteration happens to yield it* (Rust's `HashMap` fixes no order): each server
contributes (id, display name, tool list). -/
def force_refresh_tool_cache (servers : List (String × String × List Tool)) :
    RefreshOutcome :=
  servers.foldl
    (fun st s => s.2.2.foldl (refreshToolStep s.1 s.2.1) st)
    { tool_index := [], tool_cache := [], warnings := [] }

/-- The flat sequence of (tool name, server id) claims a refresh processes. -/
def toolClaims (servers : List (String × String × List Tool)) :
    List (String × String) :=
  servers.flatMap (fun s => s.2.2.map (fun t => (t.name, s.1)))

/-- The servers claiming tool name `n`, in claim order (with multiplicity). -/
def claimants (claims : List (String × String)) (n : String) : List String :=
  (claims.filter (fun c => c.1 == n)).map (·.2)

/-- Adjacent pairs of a list: the collisions a left-to-right overwrite sweep
produces. -/
def adjPairs : List String → List (String × String)
  | [] => []
  | [_] => []
  | a :: b :: rest => (a, b) :: adjPairs (b :: rest)

/-- Index-and-warnings part of the refresh state. -/
structure IndexSt : Type where
  idx : List (String × String)
  warns : List (String × String × String)
deriving DecidableEq, Repr

/-- The index/warning effect of processing one claim. -/
def claimStep (st : IndexSt) (c : String × String) : IndexSt :=
  match lookupA st.idx c.1 with
  | some first =>
      { idx := assocSet st.idx c.1 c.2, warns := st.warns ++ [(c.1, first, c.2)] }
  | none => { idx := assocSet st.idx c.1 c.2, warns := st.warns }

/-- Projection of the refresh state onto its index/warning part. -/
def projIdx (st : RefreshOutcome) : IndexSt :=
  { idx := st.tool_index, warns := st.warnings }

/-- Two iteration orders of the same two-server map for the C5 counterexample:
servers `a` and `b` both offer tool `t`. -/
def c5order1 : List (String × String × List Tool) :=
  [("a", "A", [{ name := "t", description := none }]),
   ("b", "B", [{ name := "t", description := none }])]

/-- The reversed iteration order of the same map. -/
def c5order2 : List (String × String × List Tool) := c5order1.reverse

/-- Upstream used by the C5 and C6 witnesses: always succeeds. -/
def okUpstream : Upstream := fun _ => .ok { content := ["ok"], is_error := some true }

/-- Upstream used by the C6 witness: always fails at the transport level. -/
def failUpstream : Upstream := fun _ => .error "connection reset"


/-- Strip leading and trailing whitespace of a character list. -/
def trimChars (l : List Char) : List Char :=
  ((l.dropWhile Char.isWhitespace).reverse.dropWhile Char.isWhitespace).reverse

/-- Rust `str::trim`, modelled on the string's characters. -/
def strTrim (s : String) : String := String.mk (trimChars s.data)

/-- `ServerProtocol` (`src/config/server.rs` lines 16–29). -/
inductive ServerProtocol : Type
  | stdIo
  | sse
  | http
  | unknown
deriving DecidableEq, Repr

/-- `ServerDefinition` (`src/config/server.rs` lines 32–61). -/
structure ServerDefinition : Type where
  id : String
  name : Option String
  protocol : ServerProtocol
  command : String
  args : List String
  env : List (String × String)
  endpoint : Option String
  headers : List (String × String)
  enabled : Bool
deriving DecidableEq, Repr

/-- The `CoreError` variants `ServerDefinition::validate` produces
(`src/config/server.rs` lines 63–106). -/
inductive ValidateError : Type
  | serverNameEmpty
  | serverCommandEmpty
  | unsupportedProtocol
  | serverEndpointMissing
  | serverEndpointInvalid
deriving DecidableEq, Repr

/-- The endpoint after the trim-and-drop-blank step of `validate`. -/
def trimmedEndpoint (d : ServerDefinition) : Option String :=
  d.endpoint.bind (fun value =>
    let trimmed := strTrim value
    if trimmed == "" then none else some trimmed)

/-- `ServerDefinition::validate` (`src/config/server.rs` lines 63–106),
parameterised by the success of `url::Url::parse` on the trimmed endpoint
(the code depends on the URL crate only through parse success/failure).
Checks in source order: name present and non-blank; for stdio a non-blank
command; protocol not `Unknown`; for sse/http a present, non-blank,
parseable endpoint. -/
def validate (urlParseOk : String → Bool) (d : ServerDefinition) :
    Except ValidateError Unit :=
  if (d.name.map (fun s => strTrim s == "")).getD true then
    .error .serverNameEmpty
  else if d.protocol = .stdIo ∧ strTrim d.command == "" then
    .error .serverCommandEmpty
  else if d.protocol = .unknown then
    .error .unsupportedProtocol
  else if d.protocol = .sse ∨ d.protocol = .http then
    match trimmedEndpoint d with
    | none => .error .serverEndpointMissing
    | some endpoint =>
        if urlParseOk endpoint then .ok () else .error .serverEndpointInvalid
  else
    .ok ()

/-- C9 counterexample input: a stdio definition with a non-empty but
whitespace-only command. -/
def c9stdioBlankCommand : ServerDefinition :=
  { id := "s", name := some "n", protocol := .stdIo, command := " ",
    args := [], env := [], endpoint := none, headers := [], enabled := true }


/-- C9 witness input: a well-formed SSE definition. -/
def c9sseGood : ServerDefinition :=
  { id := "deepwiki", name := some "DeepWiki", protocol := .sse, command := "",
    args := [], env := [], endpoint := some "https://mcp.deepwiki.com/sse",
    headers := [], enabled := false }

/-- C9 witness input: an SSE definition with no endpoint. -/
def c9sseMissingEndpoint : ServerDefinition :=
  { id := "invalid", name := some "Invalid", protocol := .sse, command := "npx",
    args := [], env := [], endpoint := none, headers := [], enabled := true }

/-- C9 witness input: a definition without a name. -/
def c9noName : ServerDefinition :=
  { id := "x", name := none, protocol := .stdIo, command := "npx",
    args := [], env := [], endpoint := none, headers := [], enabled := true }


/-- The environment `detect_project_path` (`src/bridge/connect.rs` lines
228–312) reads: the `MCP_CENTER_PROJECT_PATH` variable (a path, `some []`
when set to the empty string), the current directory, the filesystem
`exists` probe, best-effort canonicalisation (`None` = failure), and the
trimmed stdout of a successful `git rev-parse --show-toplevel` run. Paths
are component lists; `[]` is the filesystem root (or the empty path). -/
structure BridgeEnv : Type where
  project_path_var : Option (List String)
  cwd : List String
  path_exists : List String → Bool
  canonicalize : List String → Option (List String)
  git_toplevel : Option (List String)

/-- `Path::ancestors` on the reversed component list. -/
def ancestorsAux : List String → List (List String)
  | [] => [[]]
  | c :: rest => (c :: rest).reverse :: ancestorsAux rest

/-- `Path::ancestors`: the path, then each parent, down to the root. -/
def ancestorsOf (p : List String) : List (List String) :=
  ancestorsAux p.reverse

/-- `FILE_MARKERS` of `probe_markers` (`src/bridge/connect.rs` line 315). -/
def fileMarkers : List (List String) :=
  [[".cursor", "settings.json"], ["cursor.json"], [".windsurfrc"]]

/-- `DIR_MARKERS` of `probe_markers` (`src/bridge/connect.rs` line 317). -/
def dirMarkers : List (List String) :=
  [[".cursor"], [".windsurf"]]

/-- `probe_markers` (`src/bridge/connect.rs` lines 314–336): the first
(nearest) ancestor of `base` where a file or directory marker exists, itself
canonicalised best-effort. -/
def probe_markers (env : BridgeEnv) (base : List String) :
    Option (List String) :=
  (ancestorsOf base).findSome? (fun ancestor =>
    if fileMarkers.any (fun m => env.path_exists (ancestor ++ m)) ||
        dirMarkers.any (fun m => env.path_exists (ancestor ++ m)) then
      some ((env.canonicalize ancestor).getD ancestor)
    else none)

/-- `git_toplevel` (`src/bridge/connect.rs` lines 338–355): the reported
repository root, canonicalised best-effort, when the child process
succeeded. -/
def git_toplevel_path (env : BridgeEnv) : Option (List String) :=
  env.git_toplevel.map (fun path => (env.canonicalize path).getD path)

/-- `detect_project_path` (`src/bridge/connect.rs` lines 228–312): the env
override whenever the variable is set (the code never tests for emptiness),
else the nearest marker ancestor, else the git toplevel, else the current
directory — each canonicalised best-effort. -/
def detect_project_path (env : BridgeEnv) : List String :=
  match env.project_path_var with
  | some path => (env.canonicalize path).getD path
  | none =>
      match probe_markers env env.cwd with
      | some marker_dir => marker_dir
      | none =>
          match git_toplevel_path env with
          | some git_root => git_root
          | none => (env.canonicalize env.cwd).getD env.cwd

/-- The claim's remaining cascade after its override step (markers, then
git, then CWD). -/
def claimedDetectFallback (env : BridgeEnv) : List String :=
  match probe_markers env env.cwd with
  | some marker_dir => marker_dir
  | none =>
      match git_toplevel_path env with
      | some git_root => git_root
      | none => (env.canonicalize env.cwd).getD env.cwd

/-- The detection exactly as the claim states it (written from the claim,
for comparison): the override applies only when the variable is set *and
non-empty*. -/
def claimedDetectProjectPath (env : BridgeEnv) : List String :=
  match env.project_path_var with
  | some path =>
      if path = [] then claimedDetectFallback env
      else (env.canonicalize path).getD path
  | none => claimedDetectFallback env

/-- C10 counterexample environment: override set to the empty string, a
`.cursor` marker directory in the CWD, no canonicalisation, no git. -/
def c10env : BridgeEnv :=
  { project_path_var := some [],
    cwd := ["proj"],
    path_exists := fun p => p == ["proj", ".cursor"],
    canonicalize := fun _ => none,
    git_toplevel := none }

/-- C10 witness environment: override set to a non-empty path. -/
def c10envOverride : BridgeEnv :=
  { project_path_var := some ["x"], cwd := [],
    path_exists := fun _ => false, canonicalize := fun _ => none,
    git_toplevel := none }

/-- C10 witness environment: no override, `.cursor` marker in the CWD. -/
def c10envMarker : BridgeEnv :=
  { project_path_var := none, cwd := ["proj"],
    path_exists := fun p => p == ["proj", ".cursor"],
    canonicalize := fun _ => none, git_toplevel := none }

/-- C10 witness environment: no override, no markers, a git toplevel. -/
def c10envGit : BridgeEnv :=
  { project_path_var := none, cwd := ["w"],
    path_exists := fun _ => false, canonicalize := fun _ => none,
    git_toplevel := some ["g"] }

/-- C10 witness environment: no override, no markers, no git. -/
def c10envCwd : BridgeEnv :=
  { project_path_var := none, cwd := ["w"],
    path_exists := fun _ => false, canonicalize := fun _ => none,
    git_toplevel := none }


/-- One observation of the projects directory: `none` when the directory is
missing, else the `<id>.toml` files as (file stem, parsed record). A file's
(mtime, size) metadata — what `FileFingerprint` holds — is identified with
its stored record in this model: an unchanged directory yields equal
fingerprints on consecutive gathers, and a changed file changes its
fingerprint, which is exactly what the metadata pair is a proxy for. -/
def DiskObs : Type := Option (List (String × ProjectRecord))

/-- `DirectoryFingerprint` (`src/project/mod.rs` lines 164–180). -/
inductive DirectoryFingerprint : Type
  | missing
  | known (entries : List (String × ProjectRecord))
  | unknown
deriving DecidableEq, Repr

/-- `ProjectCache` (`src/project/mod.rs` lines 196–214). -/
structure ProjectCache : Type where
  records_by_id : List (String × ProjectRecord)
  path_index : List (List String × String)
  fingerprint : DirectoryFingerprint
  loaded : Bool
deriving DecidableEq, Repr

/-- `ProjectRegistry::collect_fingerprint` (`src/project/mod.rs` lines
443–467): `Missing` for an absent directory, else the `Known` entry map. -/
def collectFingerprint (d : DiskObs) : DirectoryFingerprint :=
  match d with
  | none => .missing
  | some files => .known files

/-- `ProjectRegistry::load_from_path` (`src/project/mod.rs` lines 509–520),
post-parse: a record whose stored id is blank takes the file stem as id. -/
def load_from_path (stem : String) (rec : ProjectRecord) : ProjectRecord :=
  if strTrim rec.id == "" then { rec with id := stem } else rec

/-- `CacheSnapshot` (`src/project/mod.rs` lines 240–244). -/
structure CacheSnapshot : Type where
  records_by_id : List (String × ProjectRecord)
  path_index : List (List String × String)
  fingerprint : DirectoryFingerprint
deriving DecidableEq, Repr

/-- `ProjectRegistry::scan_records` (`src/project/mod.rs` lines 469–507):
read every `.toml` file of one directory observation, keying records by their
id and paths by the record path; the snapshot's fingerprint comes from the
same pass. -/
def scan_records (d : DiskObs) : CacheSnapshot :=
  match d with
  | none =>
      { records_by_id := [], path_index := [], fingerprint := .missing }
  | some files =>
      { records_by_id :=
          files.foldl (fun m f =>
            let record := load_from_path f.1 f.2
            assocSet m record.id record) [],
        path_index :=
          files.foldl (fun m f =>
            let record := load_from_path f.1 f.2
            assocSet m record.path record.id) [],
        fingerprint := .known files }

/-- `ProjectCache::replace_with_snapshot` (`src/project/mod.rs` lines
217–226). -/
def replace_with_snapshot (snapshot : CacheSnapshot)
    (fingerprint : DirectoryFingerprint) : ProjectCache :=
  { records_by_id := snapshot.records_by_id,
    path_index := snapshot.path_index,
    fingerprint := fingerprint,
    loaded := true }

/-- `ProjectCache::clear_to_missing` (`src/project/mod.rs` lines 228–233). -/
def clear_to_missing : ProjectCache :=
  { records_by_id := [], path_index := [], fingerprint := .missing,
    loaded := true }

/-- The retry loop of `ProjectRegistry::refresh_cache` (`src/project/mod.rs`
lines 374–394), with `rem` attempts remaining
(`MAX_CACHE_REFRESH_ATTEMPTS = 3`) and `obs k` the next directory
observation; the second component counts directory scans performed. On
agreement between the scan's fingerprint and the confirming gather the
snapshot is installed with it; after the last disagreeing attempt the
snapshot is installed with fingerprint `Unknown`. -/
def refreshAttempts : Nat → (Nat → DiskObs) → Nat → ProjectCache →
    ProjectCache × Nat
  | 0, _, _, cache => (cache, 0)
  | rem + 1, obs, k, cache =>
      let snapshot := scan_records (obs k)
      let confirm := collectFingerprint (obs (k + 1))
      if snapshot.fingerprint = confirm then
        (replace_with_snapshot snapshot confirm, 1)
      else if rem = 0 then
        (replace_with_snapshot snapshot .unknown, 1)
      else
        let next := refreshAttempts rem obs (k + 2) cache
        (next.1, next.2 + 1)

/-- `ProjectRegistry::refresh_cache` (`src/project/mod.rs` lines 367–395):
a `Missing` fingerprint clears the cache without scanning; otherwise up to 3
scan-and-confirm attempts. -/
def refresh_cache (fingerprint : DirectoryFingerprint) (obs : Nat → DiskObs)
    (k : Nat) (cache : ProjectCache) : ProjectCache × Nat :=
  if fingerprint = .missing then (clear_to_missing, 0)
  else refreshAttempts 3 obs k cache

/-- `ProjectRegistry::ensure_cache_fresh` (`src/project/mod.rs` lines
353–365): gather the current fingerprint; when the cache is loaded, its
fingerprint equals the current one and that is not `Unknown`, return the
cached view (0 scans); else refresh. -/
def ensure_cache_fresh (obs : Nat → DiskObs) (cache : ProjectCache) :
    ProjectCache × Nat :=
  let fingerprint := collectFingerprint (obs 0)
  if cache.loaded = true ∧ cache.fingerprint = fingerprint ∧
      fingerprint ≠ .unknown then
    (cache, 0)
  else refresh_cache fingerprint obs 1 cache

/-- `ProjectRegistry::list` (`src/project/mod.rs` lines 266–271). -/
def registry_list (obs : Nat → DiskObs) (cache : ProjectCache) :
    (ProjectCache × Nat) × List ProjectRecord :=
  let fresh := ensure_cache_fresh obs cache
  (fresh, fresh.1.records_by_id.map (·.2))

/-- `ProjectRegistry::load` (`src/project/mod.rs` lines 273–282). -/
def registry_load (obs : Nat → DiskObs) (cache : ProjectCache) (id : String) :
    (ProjectCache × Nat) × Except LoadError ProjectRecord :=
  let fresh := ensure_cache_fresh obs cache
  (fresh,
    match lookupA fresh.1.records_by_id id with
    | some record => .ok record
    | none => .error (.notFound id))

/-- `ProjectRegistry::find_by_path` (`src/project/mod.rs` lines 295–304). -/
def registry_find_by_path (obs : Nat → DiskObs) (cache : ProjectCache)
    (target : List String) : (ProjectCache × Nat) × Option ProjectRecord :=
  let fresh := ensure_cache_fresh obs cache
  (fresh,
    match lookupA fresh.1.path_index target with
    | some id => lookupA fresh.1.records_by_id id
    | none => none)

/-- The registry's sequential state: the projects directory (existence and
files) together with the in-memory cache. -/
structure RegistryState : Type where
  dir_exists : Bool
  files : List (String × ProjectRecord)
  cache : ProjectCache

/-- The directory as one observation. -/
def diskOf (s : RegistryState) : DiskObs :=
  if s.dir_exists then some s.files else none

/-- The constant observation stream of a quiescent directory: between the
fingerprint gathers of one read no other process mutates it. -/
def seqObs (s : RegistryState) : Nat → DiskObs := fun _ => diskOf s

/-- `ProjectRegistry::update_cache_after_store` (`src/project/mod.rs` lines
397–421); `metadata` is the `fs::metadata` result for the just-written file
(its fingerprint proxy). An unloaded cache only has its fingerprint
downgraded to `Unknown`. -/
def update_cache_after_store (cache : ProjectCache) (record : ProjectRecord)
    (metadata : Option ProjectRecord) : ProjectCache :=
  if cache.loaded = false then { cache with fingerprint := .unknown }
  else
    let previous := lookupA cache.records_by_id record.id
    let records := assocSet cache.records_by_id record.id record
    let paths0 :=
      match previous with
      | some prev => assocDel cache.path_index prev.path
      | none => cache.path_index
    let paths := assocSet paths0 record.path record.id
    let fingerprint :=
      match cache.fingerprint, metadata with
      | .known entries, some meta =>
          DirectoryFingerprint.known (assocSet entries record.id meta)
      | _, _ => DirectoryFingerprint.unknown
    { records_by_id := records, path_index := paths,
      fingerprint := fingerprint, loaded := cache.loaded }

/-- `ProjectRegistry::store` (`src/project/mod.rs` lines 306–313):
serialise and write `<id>.toml` (fails when the directory is missing), then
patch the cache; in the sequential model the metadata gather after the write
sees the written record. -/
def registry_store (s : RegistryState) (record : ProjectRecord) :
    Except Unit RegistryState :=
  if s.dir_exists = false then .error ()
  else
    .ok { dir_exists := true,
          files := assocSet s.files record.id record,
          cache := update_cache_after_store s.cache record (some record) }

/-- `ProjectRegistry::update_cache_after_delete` (`src/project/mod.rs` lines
423–441). -/
def update_cache_after_delete (cache : ProjectCache) (id : String) :
    ProjectCache :=
  if cache.loaded = false then { cache with fingerprint := .unknown }
  else
    let previous := lookupA cache.records_by_id id
    let records := assocDel cache.records_by_id id
    let paths :=
      match previous with
      | some prev => assocDel cache.path_index prev.path
      | none => cache.path_index
    let fingerprint :=
      match cache.fingerprint with
      | .known entries => DirectoryFingerprint.known (assocDel entries id)
      | _ => DirectoryFingerprint.unknown
    { records_by_id := records, path_index := paths,
      fingerprint := fingerprint, loaded := cache.loaded }

/-- `ProjectRegistry::delete` (`src/project/mod.rs` lines 315–324): fail with
`ProjectConfigNotFound` unless the record file exists, else remove it and
patch the cache. -/
def registry_delete (s : RegistryState) (id : String) :
    Except LoadError RegistryState :=
  if s.dir_exists = true ∧ (lookupA s.files id).isSome = true then
    .ok { dir_exists := s.dir_exists,
          files := assocDel s.files id,
          cache := update_cache_after_delete s.cache id }
  else .error (.notFound id)

/-- Directory well-formedness (facts the filesystem guarantees): each stored
record carries the non-blank id its file is named after, and file stems are
unique. -/
def DiskWF (files : List (String × ProjectRecord)) : Prop :=
  (∀ f ∈ files, f.2.id = f.1 ∧ ¬ strTrim f.2.id = "") ∧
    (files.map (·.1)).Nodup

/-- Cache well-formedness (the `HashMap` type invariant plus the keying
discipline of `scan_records` and the patchers): records are keyed by their
own id, keys unique. -/
def CacheWF (cache : ProjectCache) : Prop :=
  (∀ b ∈ cache.records_by_id, b.2.id = b.1) ∧
    (cache.records_by_id.map (·.1)).Nodup


/-- The (key, value) binding `scan_records` inserts into `records_by_id` for
one file. -/
def scanRecKey (f : String × ProjectRecord) : String × ProjectRecord :=
  ((load_from_path f.1 f.2).id, load_from_path f.1 f.2)

/-- The (key, value) binding `scan_records` inserts into `path_index` for one
file. -/
def scanPathKey (f : String × ProjectRecord) : List String × String :=
  ((load_from_path f.1 f.2).path, (load_from_path f.1 f.2).id)

/-- C7 witness record. -/
def c7record : ProjectRecord :=
  { id := "p1", path := ["w", "proj"], allowed_server_ids := ["a"],
    allowed_server_tools := [], tool_customizations := [] }

/-- C7 witness starting state: empty directory, pristine cache. -/
def c7state : RegistryState :=
  { dir_exists := true, files := [],
    cache := { records_by_id := [], path_index := [],
               fingerprint := .missing, loaded := false } }

/-- C7 witness state after `store`. -/
def c7stored : RegistryState :=
  { dir_exists := true, files := [("p1", c7record)],
    cache := update_cache_after_store c7state.cache c7record (some c7record) }

/-- C7 witness state after `delete`. -/
def c7deleted : RegistryState :=
  { dir_exists := true, files := assocDel c7stored.files "p1",
    cache := update_cache_after_delete c7stored.cache "p1" }


/-- C8 witness record. -/
def c8record : ProjectRecord :=
  { id := "p1", path := ["w"], allowed_server_ids := [],
    allowed_server_tools := [], tool_customizations := [] }

/-- C8 witness cache agreeing with the stable directory. -/
def c8cacheHit : ProjectCache :=
  { records_by_id := [("p1", c8record)], path_index := [(["w"], "p1")],
    fingerprint := .known [("p1", c8record)], loaded := true }

/-- C8 witness observation stream: an unchanging directory. -/
def c8obsStable : Nat → DiskObs := fun _ => some [("p1", c8record)]

/-- C8 witness observation stream: a directory that differs between every
scan (odd gathers) and its confirming fingerprint (even gathers). -/
def c8obsFlip : Nat → DiskObs :=
  fun k => if k % 2 = 1 then some [] else some [("p1", c8record)]

/-- C8 witness cache: never loaded. -/
def c8cacheCold : ProjectCache :=
  { records_by_id := [], path_index := [], fingerprint := .missing,
    loaded := false }

/-- C8 witness cache: fingerprint downgraded to `Unknown`. -/
def c8cacheUnknown : ProjectCache :=
  { records_by_id := [], path_index := [], fingerprint := .unknown,
    loaded := true }

/-! ## Theorems -/

/-- C1: for every load outcome, tool name and server id, the host's
permission decision agrees with the claimed decision procedure, where "a
record exists" corresponds to a successful load: tool-level permission for
the server decides first (`All` allows, `AllowList` by membership, `DenyList`
by non-membership); else the server-level list decides with the empty list
allowing all; with no record everything is allowed. -/
theorem c1_permission_decision (loadResult : Except LoadError ProjectRecord)
    (tool_name server_id : String) :
    is_tool_allowed loadResult tool_name server_id =
      claimedPermissionDecision loadResult.toOption tool_name server_id := by
  cases loadResult with
  | ok record =>
      simp only [is_tool_allowed, claimedPermissionDecision, Except.toOption]
      cases lookupA record.allowed_server_tools server_id with
      | none => rfl
      | some permission => cases permission <;> rfl
  | error e => rfl

/-- The custom-description step never changes a tool's name. -/
theorem applyCustomDescription_name (loadResult : Except LoadError ProjectRecord)
    (t : Tool) : (applyCustomDescription loadResult t).name = t.name := by
  unfold applyCustomDescription
  cases get_custom_description loadResult t.name <;> rfl

/-- C3: every failure of the per-request record load — record not found,
directory read error, file read error, or TOML parse error alike — makes
`is_tool_allowed` return `true` for every (tool, server) pair,
`get_custom_description` return `none`, and consequently `tools/list` surface
every cached tool from every managed server unchanged. -/
theorem c3_load_failure_fails_open (e : LoadError) (tool_name server_id : String)
    (entries : List ToolEntry) :
    is_tool_allowed (.error e) tool_name server_id = true ∧
      get_custom_description (.error e) tool_name = none ∧
      list_tools entries (.error e) = entries.map (·.tool) := by
  refine ⟨rfl, rfl, ?_⟩
  induction entries with
  | nil => rfl
  | cons entry rest ih =>
      simpa [list_tools, is_tool_allowed, applyCustomDescription,
        get_custom_description] using congrArg (entry.tool :: ·) ih

/-- C2: a tool present in the Server Manager's index but disallowed for the
current project is rejected by `tools/call` with an `InvalidParams` message
containing both the tool name and the owning server id; an allowed tool is
delegated to the Server Manager with the parameters unchanged; and
`tools/list` omits every tool name all of whose cache entries are
disallowed. -/
theorem c2_disallowed_tool_rejected_and_omitted
    (tool_index : List (String × String))
    (loadResult : Except LoadError ProjectRecord)
    (tool_name server_id : String) (arguments : List (String × String))
    (entries : List ToolEntry) :
    (lookupA tool_index tool_name = some server_id →
      is_tool_allowed loadResult tool_name server_id = false →
      host_call_tool tool_index loadResult tool_name arguments =
          .rejected (permissionDeniedMessage tool_name server_id) ∧
        (∃ a b, permissionDeniedMessage tool_name server_id =
          a ++ tool_name ++ b) ∧
        (∃ c d, permissionDeniedMessage tool_name server_id =
          c ++ server_id ++ d)) ∧
    (lookupA tool_index tool_name = some server_id →
      is_tool_allowed loadResult tool_name server_id = true →
      host_call_tool tool_index loadResult tool_name arguments =
        .delegated tool_name arguments) ∧
    ((∀ e ∈ entries, e.tool.name = tool_name →
        is_tool_allowed loadResult tool_name e.server_id = false) →
      ∀ t ∈ list_tools entries loadResult, t.name ≠ tool_name) := by
  refine ⟨fun hidx hdeny => ?_, fun hidx hallow => ?_, fun hdenyall => ?_⟩
  · refine ⟨by simp [host_call_tool, hidx, hdeny], ⟨"Tool '", ?_⟩, ?_⟩
    · exact ⟨"' from server '" ++ server_id ++
        "' is not allowed for this project",
        by simp [permissionDeniedMessage, String.append_assoc]⟩
    · exact ⟨"Tool '" ++ tool_name ++ "' from server '",
        "' is not allowed for this project",
        by simp [permissionDeniedMessage, String.append_assoc]⟩
  · simp [host_call_tool, hidx, hallow]
  · intro t ht hname
    simp only [list_tools, List.mem_filterMap] at ht
    obtain ⟨e, he, hsome⟩ := ht
    by_cases hall : is_tool_allowed loadResult e.tool.name e.server_id
    · rw [if_pos hall] at hsome
      have ht' : t = applyCustomDescription loadResult e.tool :=
        (Option.some_inj.mp hsome).symm
      have hname' : e.tool.name = tool_name := by
        rw [← applyCustomDescription_name loadResult e.tool, ← ht', hname]
      rw [hname'] at hall
      exact absurd hall (by simp [hdenyall e he hname'])
    · rw [if_neg hall] at hsome
      exact Option.noConfusion hsome


/-- Witness for C2 at the concrete inputs: the denied tool `t1` is rejected
with the message naming it and server `a`, the allowed tool `t2` is delegated
unchanged, and `tools/list` omits `t1`. -/
theorem c2_witness :
    host_call_tool c2index (.ok c2record) "t1" [] =
        .rejected (permissionDeniedMessage "t1" "a") ∧
      host_call_tool c2index (.ok c2record) "t2" [] = .delegated "t2" [] ∧
      ∀ t ∈ list_tools c2entries (.ok c2record), t.name ≠ "t1" :=
  ⟨((c2_disallowed_tool_rejected_and_omitted c2index (.ok c2record) "t1" "a" []
      c2entries).1 (by decide) (by decide)).1,
   (c2_disallowed_tool_rejected_and_omitted c2index (.ok c2record) "t2" "a" []
      c2entries).2.1 (by decide) (by decide),
   (c2_disallowed_tool_rejected_and_omitted c2index (.ok c2record) "t1" "a" []
      c2entries).2.2 (by decide)⟩

/-- C4: the decoration is never applied to surfaced tools. `HostService::
list_tools` returns the cached `entry.tool` verbatim (here: description
`"Searches the web."`, which carries no `[provided by` marker), even though
`ToolEntry::into_tool` — the function that would append the annotation exactly
once — exists in the code base; it is called from nowhere. The third conjunct
shows what the decorated description would have been. -/
theorem c4_surfaced_tools_not_decorated :
    list_tools [c4entry] (.ok c4record) =
        [{ name := "search", description := some "Searches the web." }] ∧
      strContains "Searches the web." "[provided by" = false ∧
      into_tool c4entry =
        { name := "search",
          description := some ("Searches the web." ++ providerNote "Alpha" "a") } := by
  refine ⟨by decide, by decide, by decide⟩


/-- Looking up the key just set yields the new value. -/
theorem lookupA_assocSet_self {κ α : Type} [BEq κ] [LawfulBEq κ]
    (m : List (κ × α)) (k : κ)
    (v : α) : lookupA (assocSet m k v) k = some v := by
  induction m with
  | nil => simp [assocSet, lookupA, List.find?]
  | cons kv rest ih =>
      cases hb : kv.1 == k with
      | true => simp [assocSet, hb, lookupA, List.find?]
      | false => simpa [assocSet, hb, lookupA, List.find?] using ih

/-- Setting one key leaves every other key's lookup unchanged. -/
theorem lookupA_assocSet_ne {κ α : Type} [BEq κ] [LawfulBEq κ]
    (m : List (κ × α)) (k k' : κ)
    (v : α) (h : k' ≠ k) : lookupA (assocSet m k v) k' = lookupA m k' := by
  induction m with
  | nil =>
      have h1 : (k == k') = false := by
        simpa using fun heq => h heq.symm
      simp [assocSet, lookupA, List.find?, h1]
  | cons kv rest ih =>
      cases hb : kv.1 == k with
      | true =>
          have hk : kv.1 = k := by simpa using hb
          have h1 : (k == k') = false := by
            simpa using fun heq => h heq.symm
          have h2 : (kv.1 == k') = false := by
            simpa [hk] using fun heq => h heq.symm
          simp [assocSet, hb, lookupA, List.find?, h1, h2]
      | false =>
          cases hb' : kv.1 == k' with
          | true => simp [assocSet, hb, lookupA, List.find?, hb']
          | false => simpa [assocSet, hb, lookupA, List.find?, hb'] using ih

/-- Unfolding equation of `adjPairs` on two cons cells. -/
theorem adjPairs_cons_cons (a b : String) (l : List String) :
    adjPairs (a :: b :: l) = (a, b) :: adjPairs (b :: l) := rfl

/-- `adjPairs` over a snoc: the new element pairs with the previous last. -/
theorem adjPairs_concat (l : List String) (x : String) :
    adjPairs (l ++ [x]) =
      adjPairs l ++
        (match l.getLast? with
          | some y => [(y, x)]
          | none => []) := by
  induction l with
  | nil => rfl
  | cons a t ih =>
      cases t with
      | nil => rfl
      | cons b rest =>
          have h1 : (a :: b :: rest) ++ [x] = a :: b :: (rest ++ [x]) := by simp
          rw [h1, adjPairs_cons_cons, adjPairs_cons_cons, ← List.cons_append,
            ih, List.getLast?_cons_cons, List.cons_append]

/-- Splitting the claimants of a name at a cons. -/
theorem claimants_cons (c : String × String) (rest : List (String × String))
    (n : String) :
    claimants (c :: rest) n =
      (if c.1 == n then [c.2] else []) ++ claimants rest n := by
  cases hb : c.1 == n <;> simp [claimants, List.filter_cons, hb]

/-- Effect of one `claimStep` on the per-name index and warning views. -/
theorem claimStep_inv (st : IndexSt) (c : String × String)
    (hist : String → List String)
    (H : ∀ n, lookupA st.idx n = (hist n).getLast? ∧
      st.warns.filter (fun w => w.1 == n) =
        (adjPairs (hist n)).map (fun p => (n, p.1, p.2))) :
    ∀ n, lookupA (claimStep st c).idx n =
        (hist n ++ if c.1 == n then [c.2] else []).getLast? ∧
      (claimStep st c).warns.filter (fun w => w.1 == n) =
        (adjPairs (hist n ++ if c.1 == n then [c.2] else [])).map
          (fun p => (n, p.1, p.2)) := by
  intro n
  obtain ⟨Hl, Hw⟩ := H n
  by_cases hn : c.1 = n
  · subst hn
    simp only [beq_self_eq_true, if_pos]
    cases hfind : lookupA st.idx c.1 with
    | some first =>
        have hlast : (hist c.1).getLast? = some first := by rw [← Hl, hfind]
        constructor
        · rw [claimStep, hfind]
          simp [lookupA_assocSet_self]
        · rw [claimStep, hfind]
          simp [List.filter_append, Hw, adjPairs_concat, hlast,
            List.map_append]
    | none =>
        have hnil : hist c.1 = [] := by
          rw [← List.getLast?_eq_none_iff, ← Hl, hfind]
        constructor
        · rw [claimStep, hfind]
          simp [lookupA_assocSet_self]
        · rw [claimStep, hfind]
          simp [Hw, hnil, adjPairs]
  · have hb : (c.1 == n) = false := by simpa using hn
    simp only [hb, if_neg, Bool.false_eq_true, not_false_iff, List.append_nil]
    cases hfind : lookupA st.idx c.1 with
    | some first =>
        constructor
        · rw [claimStep, hfind]
          simpa [lookupA_assocSet_ne _ _ _ _ (fun heq => hn heq.symm)] using Hl
        · rw [claimStep, hfind]
          simp [List.filter_append, Hw, hb]
    | none =>
        constructor
        · rw [claimStep, hfind]
          simpa [lookupA_assocSet_ne _ _ _ _ (fun heq => hn heq.symm)] using Hl
        · rw [claimStep, hfind]
          exact Hw

/-- Folding `claimStep` over a claim list extends the per-name views by the
list's claimants. -/
theorem claimStep_foldl_inv (claims : List (String × String))
    (hist : String → List String) (st : IndexSt)
    (H : ∀ n, lookupA st.idx n = (hist n).getLast? ∧
      st.warns.filter (fun w => w.1 == n) =
        (adjPairs (hist n)).map (fun p => (n, p.1, p.2))) :
    ∀ n, lookupA (claims.foldl claimStep st).idx n =
        (hist n ++ claimants claims n).getLast? ∧
      (claims.foldl claimStep st).warns.filter (fun w => w.1 == n) =
        (adjPairs (hist n ++ claimants claims n)).map (fun p => (n, p.1, p.2)) := by
  induction claims generalizing hist st with
  | nil => simpa [claimants] using H
  | cons c rest ih =>
      intro n
      have step := claimStep_inv st c hist H
      have tail := ih (fun n => hist n ++ if c.1 == n then [c.2] else [])
        (claimStep st c) step n
      simpa [claimants_cons, List.append_assoc] using tail

/-- One inner-loop step changes the index/warning view exactly as one
`claimStep`. -/
theorem projIdx_refreshToolStep (server_id server_name : String)
    (st : RefreshOutcome) (t : Tool) :
    projIdx (refreshToolStep server_id server_name st t) =
      claimStep (projIdx st) (t.name, server_id) := by
  unfold refreshToolStep claimStep assocInsert projIdx
  cases lookupA st.tool_index t.name <;> rfl

/-- The inner tool loop is `claimStep` folded over that server's claims. -/
theorem projIdx_inner_foldl (server_id server_name : String)
    (tools : List Tool) (st : RefreshOutcome) :
    projIdx (tools.foldl (refreshToolStep server_id server_name) st) =
      (tools.map (fun t => (t.name, server_id))).foldl claimStep (projIdx st) := by
  induction tools generalizing st with
  | nil => rfl
  | cons t rest ih =>
      simp only [List.foldl_cons, List.map_cons, ih, projIdx_refreshToolStep]

/-- The refresh's index and warnings are `claimStep` folded over the flat
claim sequence. -/
theorem projIdx_force_refresh (servers : List (String × String × List Tool)) :
    projIdx (force_refresh_tool_cache servers) =
      (toolClaims servers).foldl claimStep { idx := [], warns := [] } := by
  suffices h : ∀ (ss : List (String × String × List Tool)) (st : RefreshOutcome),
      projIdx (ss.foldl
          (fun st s => s.2.2.foldl (refreshToolStep s.1 s.2.1) st) st) =
        (toolClaims ss).foldl claimStep (projIdx st) by
    exact h servers { tool_index := [], tool_cache := [], warnings := [] }
  intro ss
  induction ss with
  | nil => intro st; rfl
  | cons sv rest ih =>
      intro st
      simp only [List.foldl_cons, toolClaims, List.flatMap_cons,
        List.foldl_append, ih, projIdx_inner_foldl]


/-- C5 counterexample: the refresh iterates the `HashMap` of servers, which
fixes no order; the winner of a tool-name collision is whatever server the
enumeration yields last. The same two-server map (`a` and `b`, both offering
tool `t`), enumerated in its two possible orders, maps `t` to different
servers — so no order-independent rule ("insertion order by id" or
"lexicographic by server-id") describes the code, and the claimed determinism
fails. -/
theorem c5_collision_winner_depends_on_iteration_order :
    c5order2 = c5order1.reverse ∧
      c5order1.Perm c5order2 ∧
      lookupA (force_refresh_tool_cache c5order1).tool_index "t" = some "b" ∧
      lookupA (force_refresh_tool_cache c5order2).tool_index "t" = some "a" := by
  refine ⟨rfl, by decide, by decide, by decide⟩

/-- C5 as amended: for whatever order the `HashMap` enumeration yields, each
later claim of a tool name overwrites the earlier one (the index maps each
name to its *last* claimant in that order), exactly one warning naming both
server ids is emitted per overwrite (the warnings for a name are exactly the
adjacent pairs of its claimants), and a subsequent `call_tool` for the name
dispatches to that last claimant. -/
theorem c5_amended_last_claim_wins (servers : List (String × String × List Tool))
    (n : String) :
    lookupA (force_refresh_tool_cache servers).tool_index n =
        (claimants (toolClaims servers) n).getLast? ∧
      (force_refresh_tool_cache servers).warnings.filter (fun w => w.1 == n) =
        (adjPairs (claimants (toolClaims servers) n)).map (fun p => (n, p.1, p.2)) ∧
      ∀ (ups : List (String × Upstream)) (p : CallToolRequestParam)
        (w : String) (up : Upstream) (r : CallToolResult),
        p.name = n → (claimants (toolClaims servers) n).getLast? = some w →
        lookupA ups w = some up → up p = .ok r →
        sm_call_tool (force_refresh_tool_cache servers).tool_index ups p = .ok r := by
  have base : ∀ m, lookupA (IndexSt.idx { idx := [], warns := [] }) m =
      (([] : List String)).getLast? ∧
      (IndexSt.warns { idx := [], warns := [] }).filter (fun w => w.1 == m) =
        (adjPairs ([] : List String)).map (fun p => (m, p.1, p.2)) := by
    intro m; exact ⟨rfl, rfl⟩
  have inv := claimStep_foldl_inv (toolClaims servers) (fun _ => [])
    { idx := [], warns := [] } base n
  rw [← projIdx_force_refresh] at inv
  simp only [List.nil_append, projIdx] at inv
  refine ⟨inv.1, inv.2, ?_⟩
  intro ups p w up r hp hwin hups hok
  have hidx : lookupA (force_refresh_tool_cache servers).tool_index p.name =
      some w := by rw [hp, inv.1, hwin]
  simp [sm_call_tool, hidx, hups, hok]

/-- Witness for the amended C5 at the two-server collision: with iteration
order `[a, b]`, the call for `t` reaches server `b`'s upstream. -/
theorem c5_amended_witness :
    sm_call_tool (force_refresh_tool_cache c5order1).tool_index
        [("b", okUpstream)] { name := "t", arguments := [] } =
      .ok { content := ["ok"], is_error := some true } :=
  (c5_amended_last_claim_wins c5order1 "t").2.2 [("b", okUpstream)]
    { name := "t", arguments := [] } "b" okUpstream
    { content := ["ok"], is_error := some true } rfl (by decide) rfl rfl

/-- C6: `ServerManager::call_tool` with a fresh cache: a name absent from the
name→server-id index fails with `MethodNotFound`; a resolved name is forwarded
to that server's upstream peer and its `CallToolResult` — `is_error` flag
included — is returned unchanged; a transport-level failure of the forwarded
call surfaces as an `Internal` error carrying the failure message. -/
theorem c6_call_tool_dispatch (tool_index : List (String × String))
    (servers : List (String × Upstream)) (params : CallToolRequestParam) :
    (lookupA tool_index params.name = none →
      sm_call_tool tool_index servers params = .error .methodNotFound) ∧
    (∀ (server_id : String) (upstream : Upstream) (result : CallToolResult),
      lookupA tool_index params.name = some server_id →
      lookupA servers server_id = some upstream →
      upstream params = .ok result →
      sm_call_tool tool_index servers params = .ok result) ∧
    (∀ (server_id : String) (upstream : Upstream) (message : String),
      lookupA tool_index params.name = some server_id →
      lookupA servers server_id = some upstream →
      upstream params = .error message →
      sm_call_tool tool_index servers params = .error (.internalError message)) := by
  refine ⟨fun h => ?_, fun sid up r h1 h2 h3 => ?_, fun sid up msg h1 h2 h3 => ?_⟩
  · simp [sm_call_tool, h]
  · simp [sm_call_tool, h1, h2, h3]
  · simp [sm_call_tool, h1, h2, h3]

/-- Witness for C6 at concrete inputs: index `t → a`, `u → b`; server `a`
succeeds (with `is_error = some true` bubbled through untouched), server `b`
fails at the transport level, and an unindexed name is `MethodNotFound`. -/
theorem c6_call_tool_dispatch_witness :
    sm_call_tool [("t", "a"), ("u", "b")] [("a", okUpstream), ("b", failUpstream)]
        { name := "missing", arguments := [] } = .error .methodNotFound ∧
      sm_call_tool [("t", "a"), ("u", "b")] [("a", okUpstream), ("b", failUpstream)]
        { name := "t", arguments := [] } =
          .ok { content := ["ok"], is_error := some true } ∧
      sm_call_tool [("t", "a"), ("u", "b")] [("a", okUpstream), ("b", failUpstream)]
        { name := "u", arguments := [] } =
          .error (.internalError "connection reset") :=
  ⟨(c6_call_tool_dispatch [("t", "a"), ("u", "b")]
      [("a", okUpstream), ("b", failUpstream)]
      { name := "missing", arguments := [] }).1 rfl,
   (c6_call_tool_dispatch [("t", "a"), ("u", "b")]
      [("a", okUpstream), ("b", failUpstream)]
      { name := "t", arguments := [] }).2.1 "a" okUpstream
      { content := ["ok"], is_error := some true } rfl rfl rfl,
   (c6_call_tool_dispatch [("t", "a"), ("u", "b")]
      [("a", okUpstream), ("b", failUpstream)]
      { name := "u", arguments := [] }).2.2 "b" failUpstream
      "connection reset" rfl rfl rfl⟩


/-- C9 counterexample: the claim says that for stdio "validation fails if and
only if `d.command` is empty", but `validate` trims first: this definition
has the non-empty command `" "` and still fails validation (with
`ServerCommandEmpty`). -/
theorem c9_blank_command_fails_though_nonempty :
    validate (fun _ => true) c9stdioBlankCommand = .error .serverCommandEmpty ∧
      c9stdioBlankCommand.command ≠ "" := by
  refine ⟨rfl, by decide⟩

/-- C9 as amended: given a present, non-blank name — for sse/http, validation
fails iff the endpoint is absent, blank after trimming, or not parseable as a
URL; for stdio, validation fails iff the command is empty or whitespace-only;
and every definition whose name is absent or blank fails validation with
`ServerNameEmpty`. -/
theorem c9_amended_validate_characterisation (urlParseOk : String → Bool)
    (d d' : ServerDefinition) :
    ((d.name.map (fun s => strTrim s == "")).getD true = false →
      ((d.protocol = .sse ∨ d.protocol = .http →
        (validate urlParseOk d ≠ .ok () ↔
          (trimmedEndpoint d = none ∨
            ∃ endpoint, trimmedEndpoint d = some endpoint ∧
              urlParseOk endpoint = false))) ∧
        (d.protocol = .stdIo →
          (validate urlParseOk d ≠ .ok () ↔ strTrim d.command = "")))) ∧
    ((d'.name.map (fun s => strTrim s == "")).getD true = true →
      validate urlParseOk d' = .error .serverNameEmpty) := by
  constructor
  · intro hname
    constructor
    · intro hp
      have hstd : ¬ (d.protocol = .stdIo ∧ (strTrim d.command == "") = true) := by
        rcases hp with h | h <;> simp [h]
      have hunk : ¬ d.protocol = .unknown := by
        rcases hp with h | h <;> simp [h]
      rw [validate]
      simp only [hname, Bool.false_eq_true, if_false, if_neg hstd, if_neg hunk,
        if_pos hp]
      cases hep : trimmedEndpoint d with
      | none => simp
      | some endpoint =>
          cases hurl : urlParseOk endpoint with
          | true => simp [hurl]
          | false => simp [hurl]
    · intro hp
      have hunk : ¬ d.protocol = .unknown := by simp [hp]
      have hrem : ¬ (d.protocol = .sse ∨ d.protocol = .http) := by
        simp [hp]
      rw [validate]
      simp only [hname, Bool.false_eq_true, if_false, if_neg hunk, if_neg hrem]
      by_cases hcmd : strTrim d.command = ""
      · simp [hp, hcmd]
      · have : ¬ (d.protocol = .stdIo ∧ (strTrim d.command == "") = true) := by
          simp [hp, hcmd]
        simp [if_neg this, hcmd]
  · intro hblank
    rw [validate]
    simp [hblank]


/-- Witness for the amended C9: a good SSE definition passes; a missing
endpoint fails; a blank command fails for stdio; an absent name fails with
`ServerNameEmpty`. -/
theorem c9_amended_witness :
    validate (fun _ => true) c9sseGood = .ok () ∧
      validate (fun _ => true) c9sseMissingEndpoint ≠ .ok () ∧
      validate (fun _ => true) c9stdioBlankCommand ≠ .ok () ∧
      validate (fun _ => true) c9noName = .error .serverNameEmpty := by
  refine ⟨?_, ?_, ?_, ?_⟩
  · have h := ((c9_amended_validate_characterisation (fun _ => true) c9sseGood
      c9sseGood).1 (by decide)).1 (Or.inl rfl)
    refine Classical.byContradiction (fun hne => ?_)
    rcases h.mp hne with h1 | ⟨ep, _, h2⟩
    · exact absurd h1 (by decide)
    · exact Bool.noConfusion h2
  · exact (((c9_amended_validate_characterisation (fun _ => true)
      c9sseMissingEndpoint c9sseMissingEndpoint).1 (by decide)).1
      (Or.inl rfl)).mpr (Or.inl (by decide))
  · exact (((c9_amended_validate_characterisation (fun _ => true)
      c9stdioBlankCommand c9stdioBlankCommand).1 (by decide)).2 rfl).mpr (by decide)
  · exact (c9_amended_validate_characterisation (fun _ => true) c9noName
      c9noName).2 (by decide)


/-- C10 counterexample: with `MCP_CENTER_PROJECT_PATH` set to the empty
string and a `.cursor` marker in the CWD, the claim's priority order says the
override is skipped (it is empty) and the marker ancestor `proj` wins; the
code never tests the override for emptiness and returns the empty path. -/
theorem c10_empty_override_taken :
    c10env.project_path_var = some [] ∧
      detect_project_path c10env = [] ∧
      claimedDetectProjectPath c10env = ["proj"] ∧
      detect_project_path c10env ≠ claimedDetectProjectPath c10env := by
  refine ⟨rfl, rfl, rfl, by decide⟩

/-- C10 as amended: the bridge's project-path detection follows the priority
order (a) the env override whenever the variable is *set* (empty or not);
otherwise (b) the nearest marker ancestor of the CWD; otherwise (c) the git
toplevel; otherwise (d) the CWD — each canonicalised best-effort. -/
theorem c10_amended_detection_priority (env : BridgeEnv) :
    (∀ path, env.project_path_var = some path →
      detect_project_path env = (env.canonicalize path).getD path) ∧
    (env.project_path_var = none →
      ∀ marker_dir, probe_markers env env.cwd = some marker_dir →
        detect_project_path env = marker_dir) ∧
    (env.project_path_var = none → probe_markers env env.cwd = none →
      ∀ git_root, git_toplevel_path env = some git_root →
        detect_project_path env = git_root) ∧
    (env.project_path_var = none → probe_markers env env.cwd = none →
      git_toplevel_path env = none →
      detect_project_path env = (env.canonicalize env.cwd).getD env.cwd) := by
  refine ⟨fun path h => ?_, fun h md hm => ?_, fun h hm gr hg => ?_,
    fun h hm hg => ?_⟩
  · simp [detect_project_path, h]
  · simp [detect_project_path, h, hm]
  · simp [detect_project_path, h, hm, hg]
  · simp [detect_project_path, h, hm, hg]

/-- Witness for the amended C10, one environment per priority level: the
override (even though canonicalisation fails), the marker ancestor, the git
toplevel, and the CWD fallback. -/
theorem c10_amended_witness :
    detect_project_path c10envOverride = ["x"] ∧
      detect_project_path c10envMarker = ["proj"] ∧
      detect_project_path c10envGit = ["g"] ∧
      detect_project_path c10envCwd = ["w"] :=
  ⟨((c10_amended_detection_priority c10envOverride).1 ["x"] rfl).trans rfl,
   ((c10_amended_detection_priority c10envMarker).2.1 rfl ["proj"] rfl),
   ((c10_amended_detection_priority c10envGit).2.2.1 rfl rfl ["g"] rfl),
   ((c10_amended_detection_priority c10envCwd).2.2.2 rfl rfl rfl).trans rfl⟩


/-- Membership in `assocSet`: every binding is the new one or an old one. -/
theorem mem_assocSet {κ α : Type} [BEq κ] (m : List (κ × α)) (k : κ) (v : α)
    (b : κ × α) (hb : b ∈ assocSet m k v) : b = (k, v) ∨ b ∈ m := by
  induction m with
  | nil => simpa [assocSet] using hb
  | cons kv rest ih =>
      rw [assocSet] at hb
      by_cases hk : (kv.1 == k) = true
      · rw [if_pos hk] at hb
        rcases List.mem_cons.mp hb with h | h
        · exact Or.inl h
        · exact Or.inr (List.mem_cons_of_mem _ h)
      · rw [if_neg hk] at hb
        rcases List.mem_cons.mp hb with h | h
        · exact Or.inr (h ▸ List.mem_cons_self _ _)
        · rcases ih h with h' | h'
          · exact Or.inl h'
          · exact Or.inr (List.mem_cons_of_mem _ h')

/-- The new binding is always present after `assocSet`. -/
theorem mem_assocSet_self {κ α : Type} [BEq κ] [LawfulBEq κ]
    (m : List (κ × α)) (k : κ) (v : α) : (k, v) ∈ assocSet m k v := by
  induction m with
  | nil => simp [assocSet]
  | cons kv rest ih =>
      rw [assocSet]
      by_cases hk : (kv.1 == k) = true
      · rw [if_pos hk]; exact List.mem_cons_self _ _
      · rw [if_neg hk]; exact List.mem_cons_of_mem _ ih

/-- With unique keys, an old binding surviving `assocSet` has another key. -/
theorem mem_assocSet_nodup {κ α : Type} [BEq κ] [LawfulBEq κ]
    (m : List (κ × α)) (k : κ) (v : α) (hnd : (m.map (·.1)).Nodup)
    (b : κ × α) (hb : b ∈ assocSet m k v) :
    b = (k, v) ∨ (b ∈ m ∧ ¬ b.1 = k) := by
  induction m with
  | nil => simpa [assocSet] using hb
  | cons kv rest ih =>
      rw [assocSet] at hb
      have hnd' : (rest.map (·.1)).Nodup := (List.nodup_cons.mp hnd).2
      by_cases hk : (kv.1 == k) = true
      · rw [if_pos hk] at hb
        have hkk : kv.1 = k := by simpa using hk
        rcases List.mem_cons.mp hb with h | h
        · exact Or.inl h
        · refine Or.inr ⟨List.mem_cons_of_mem _ h, fun hbk => ?_⟩
          have : kv.1 ∈ rest.map (·.1) := by
            rw [hkk, ← hbk]
            exact List.mem_map_of_mem _ h
          exact (List.nodup_cons.mp hnd).1 this
      · rw [if_neg hk] at hb
        rcases List.mem_cons.mp hb with h | h
        · refine Or.inr ⟨h ▸ List.mem_cons_self _ _, ?_⟩
          rw [h]
          simpa using hk
        · rcases ih hnd' h with h' | ⟨h1, h2⟩
          · exact Or.inl h'
          · exact Or.inr ⟨List.mem_cons_of_mem _ h1, h2⟩

/-- `assocSet` keeps keys unique. -/
theorem nodup_keys_assocSet {κ α : Type} [BEq κ] [LawfulBEq κ]
    (m : List (κ × α)) (k : κ) (v : α) (hnd : (m.map (·.1)).Nodup) :
    ((assocSet m k v).map (·.1)).Nodup := by
  induction m with
  | nil => simp [assocSet]
  | cons kv rest ih =>
      rw [assocSet]
      obtain ⟨hhd, htl⟩ := List.nodup_cons.mp hnd
      by_cases hk : (kv.1 == k) = true
      · have hkk : kv.1 = k := by simpa using hk
        rw [if_pos hk]
        simpa [hkk] using hnd
      · rw [if_neg hk]
        refine List.nodup_cons.mpr ⟨fun hmem => ?_, ih htl⟩
        rcases List.mem_map.mp hmem with ⟨b, hb, hb1⟩
        rcases mem_assocSet rest k v b hb with h | h
        · rw [h] at hb1
          exact absurd (by simpa using hb1.symm) (by simpa using hk)
        · exact hhd (hb1 ▸ List.mem_map_of_mem _ h)

/-- `assocDel` only removes. -/
theorem assocDel_sublist {κ α : Type} [BEq κ] (m : List (κ × α)) (k : κ) :
    (assocDel m k).Sublist m := by
  induction m with
  | nil => simp [assocDel]
  | cons kv rest ih =>
      rw [assocDel]
      by_cases hk : (kv.1 == k) = true
      · rw [if_pos hk]; exact (List.sublist_cons_self _ _)
      · rw [if_neg hk]; exact ih.cons₂ kv

/-- Membership in `assocDel` implies membership before. -/
theorem mem_assocDel {κ α : Type} [BEq κ] (m : List (κ × α)) (k : κ)
    (b : κ × α) (hb : b ∈ assocDel m k) : b ∈ m :=
  (assocDel_sublist m k).mem hb

/-- A key absent from every binding looks up to nothing. -/
theorem lookupA_eq_none_of_forall {κ α : Type} [BEq κ] [LawfulBEq κ]
    (m : List (κ × α)) (k : κ) (h : ∀ b ∈ m, ¬ b.1 = k) :
    lookupA m k = none := by
  induction m with
  | nil => rfl
  | cons kv rest ih =>
      have hk : (kv.1 == k) = false := by
        simpa using h kv (List.mem_cons_self _ _)
      simp only [lookupA, List.find?]
      rw [hk]
      exact ih (fun b hb => h b (List.mem_cons_of_mem _ hb))

/-- A successful lookup exhibits the binding. -/
theorem lookupA_mem {κ α : Type} [BEq κ] [LawfulBEq κ]
    (m : List (κ × α)) (k : κ) (v : α) (h : lookupA m k = some v) :
    (k, v) ∈ m := by
  induction m with
  | nil => exact Option.noConfusion h
  | cons kv rest ih =>
      rw [lookupA, List.find?] at h
      cases hk : (kv.1 == k) with
      | true =>
          rw [hk] at h
          have hkk : kv.1 = k := by simpa using hk
          have hv : kv.2 = v := by simpa using h
          have heq : (k, v) = kv := by rw [← hkk, ← hv]
          exact heq ▸ List.mem_cons_self _ _
      | false =>
          rw [hk] at h
          exact List.mem_cons_of_mem _ (ih h)

/-- A failed lookup excludes every binding of the key. -/
theorem lookupA_none_not_mem {κ α : Type} [BEq κ] [LawfulBEq κ]
    (m : List (κ × α)) (k : κ) (h : lookupA m k = none) (v : α) :
    (k, v) ∉ m := by
  induction m with
  | nil => simp
  | cons kv rest ih =>
      rw [lookupA, List.find?] at h
      cases hk : (kv.1 == k) with
      | true => rw [hk] at h; exact Option.noConfusion h
      | false =>
          rw [hk] at h
          intro hmem
          rcases List.mem_cons.mp hmem with heq | hmem'
          · rw [← heq] at hk
            simp at hk
          · exact ih h hmem'

/-- Deleting a key from a unique-keyed map removes it entirely. -/
theorem lookupA_assocDel_self {κ α : Type} [BEq κ] [LawfulBEq κ]
    (m : List (κ × α)) (k : κ) (hnd : (m.map (·.1)).Nodup) :
    lookupA (assocDel m k) k = none := by
  induction m with
  | nil => rfl
  | cons kv rest ih =>
      obtain ⟨hhd, htl⟩ := List.nodup_cons.mp hnd
      rw [assocDel]
      by_cases hk : (kv.1 == k) = true
      · rw [if_pos hk]
        have hkk : kv.1 = k := by simpa using hk
        refine lookupA_eq_none_of_forall rest k (fun b hb hbk => ?_)
        refine hhd ?_
        show kv.1 ∈ rest.map (fun x => x.1)
        rw [hkk, ← hbk]
        exact List.mem_map_of_mem _ hb
      · rw [if_neg hk]
        simp only [lookupA, List.find?]
        rw [Bool.of_not_eq_true hk]
        exact ih htl

/-- Lookup distributes over append, first list first. -/
theorem lookupA_append {κ α : Type} [BEq κ]
    (a b : List (κ × α)) (k : κ) :
    lookupA (a ++ b) k =
      match lookupA a k with
      | some v => some v
      | none => lookupA b k := by
  induction a with
  | nil => simp [lookupA]
  | cons kv rest ih =>
      simp only [List.cons_append, lookupA, List.find?]
      cases hk : (kv.1 == k) with
      | true => rfl
      | false => simpa [lookupA] using ih

/-- Folding `assocSet` over bindings: the lookup sees the *last* binding of
the key, falling back to the initial map. -/
theorem foldl_assocSet_lookup {κ α : Type} [BEq κ] [LawfulBEq κ]
    (l : List (κ × α)) (m0 : List (κ × α)) (q : κ) :
    lookupA (l.foldl (fun m kv => assocSet m kv.1 kv.2) m0) q =
      match lookupA l.reverse q with
      | some v => some v
      | none => lookupA m0 q := by
  induction l generalizing m0 with
  | nil => simp [lookupA]
  | cons kv rest ih =>
      rw [List.foldl_cons, ih, List.reverse_cons, lookupA_append]
      cases hfind : lookupA rest.reverse q with
      | some v => rfl
      | none =>
          by_cases hq : q = kv.1
          · subst hq
            rw [lookupA_assocSet_self]
            simp [lookupA, List.find?]
          · rw [lookupA_assocSet_ne _ _ _ _ hq]
            have hk : (kv.1 == q) = false := by
              simpa using fun heq => hq heq.symm
            simp [lookupA, List.find?, hk]

/-- When every binding of a key carries the same value and one exists, the
lookup yields it — irrespective of binding order. -/
theorem lookupA_of_unique {κ α : Type} [BEq κ] [LawfulBEq κ]
    (l : List (κ × α)) (k : κ) (v : α) (h1 : (k, v) ∈ l)
    (h2 : ∀ b ∈ l, b.1 = k → b.2 = v) : lookupA l k = some v := by
  induction l with
  | nil => exact absurd h1 (List.not_mem_nil _)
  | cons kv rest ih =>
      simp only [lookupA, List.find?]
      cases hk : (kv.1 == k) with
      | true =>
          have : kv.2 = v := h2 kv (List.mem_cons_self _ _) (by simpa using hk)
          simpa using this
      | false =>
          have h1' : (k, v) ∈ rest := by
            rcases List.mem_cons.mp h1 with heq | h
            · rw [← heq] at hk; simp at hk
            · exact h
          simpa [lookupA] using
            ih h1' (fun b hb => h2 b (List.mem_cons_of_mem _ hb))

/-- Every binding produced by folding `assocSet` comes from the folded list
or the initial map. -/
theorem mem_foldl_assocSet {κ α : Type} [BEq κ]
    (l : List (κ × α)) (m0 : List (κ × α)) (b : κ × α)
    (hb : b ∈ l.foldl (fun m kv => assocSet m kv.1 kv.2) m0) :
    b ∈ l ∨ b ∈ m0 := by
  induction l generalizing m0 with
  | nil => exact Or.inr hb
  | cons kv rest ih =>
      rw [List.foldl_cons] at hb
      rcases ih (assocSet m0 kv.1 kv.2) hb with h | h
      · exact Or.inl (List.mem_cons_of_mem _ h)
      · rcases mem_assocSet m0 kv.1 kv.2 b h with h' | h'
        · exact Or.inl (h' ▸ List.mem_cons_self _ _)
        · exact Or.inr h'


/-- The record map built by `scan_records` is an `assocSet` fold over the
per-file bindings. -/
theorem scan_records_records_eq (files : List (String × ProjectRecord)) :
    (scan_records (some files)).records_by_id =
      (files.map scanRecKey).foldl (fun m kv => assocSet m kv.1 kv.2) [] := by
  rw [scan_records]
  exact (List.foldl_map scanRecKey (fun m kv => assocSet m kv.1 kv.2)
    files []).symm

/-- The path index built by `scan_records` is an `assocSet` fold over the
per-file bindings. -/
theorem scan_records_paths_eq (files : List (String × ProjectRecord)) :
    (scan_records (some files)).path_index =
      (files.map scanPathKey).foldl (fun m kv => assocSet m kv.1 kv.2) [] := by
  rw [scan_records]
  exact (List.foldl_map scanPathKey (fun m kv => assocSet m kv.1 kv.2)
    files []).symm

/-- Folding `assocSet` from the empty map: lookup = last binding. -/
theorem foldl_assocSet_lookup_nil {κ α : Type} [BEq κ] [LawfulBEq κ]
    (l : List (κ × α)) (q : κ) :
    lookupA (l.foldl (fun m kv => assocSet m kv.1 kv.2) []) q =
      lookupA l.reverse q := by
  rw [foldl_assocSet_lookup]
  cases lookupA l.reverse q <;> rfl

/-- Reverse preserves the unique-binding lookup. -/
theorem lookupA_of_unique_reverse {κ α : Type} [BEq κ] [LawfulBEq κ]
    (l : List (κ × α)) (k : κ) (v : α) (h1 : (k, v) ∈ l)
    (h2 : ∀ b ∈ l, b.1 = k → b.2 = v) : lookupA l.reverse k = some v :=
  lookupA_of_unique l.reverse k v (List.mem_reverse.mpr h1)
    (fun b hb => h2 b (List.mem_reverse.mp hb))

/-- A binding surviving `assocDel` under unique keys never carries the
deleted key. -/
theorem mem_assocDel_ne {κ α : Type} [BEq κ] [LawfulBEq κ]
    (m : List (κ × α)) (k : κ) (hnd : (m.map (·.1)).Nodup)
    (b : κ × α) (hb : b ∈ assocDel m k) : ¬ b.1 = k := by
  induction m with
  | nil => simp [assocDel] at hb
  | cons kv rest ih =>
      obtain ⟨hhd, htl⟩ := List.nodup_cons.mp hnd
      rw [assocDel] at hb
      by_cases hk : (kv.1 == k) = true
      · rw [if_pos hk] at hb
        intro hbk
        have hkk : kv.1 = k := by simpa using hk
        refine hhd ?_
        show kv.1 ∈ rest.map (fun x => x.1)
        rw [hkk, ← hbk]
        exact List.mem_map_of_mem _ hb
      · rw [if_neg hk] at hb
        rcases List.mem_cons.mp hb with heq | hmem
        · intro hbk
          rw [heq] at hbk
          exact absurd (by simpa using hbk) (by simpa using hk)
        · exact ih htl hmem


/-- Unfolding of `registry_load`'s result. -/
theorem registry_load_snd (obs : Nat → DiskObs) (cache : ProjectCache)
    (id : String) :
    (registry_load obs cache id).2 =
      match lookupA (ensure_cache_fresh obs cache).1.records_by_id id with
      | some record => .ok record
      | none => .error (.notFound id) := rfl

/-- Unfolding of `registry_find_by_path`'s result. -/
theorem registry_find_by_path_snd (obs : Nat → DiskObs) (cache : ProjectCache)
    (target : List String) :
    (registry_find_by_path obs cache target).2 =
      match lookupA (ensure_cache_fresh obs cache).1.path_index target with
      | some id => lookupA (ensure_cache_fresh obs cache).1.records_by_id id
      | none => none := rfl

/-- The ensure-miss path on a quiescent existing directory installs the scan
of that directory after the first agreeing attempt. -/
theorem ensure_cache_fresh_miss (cache : ProjectCache)
    (files : List (String × ProjectRecord))
    (hcond : ¬ (cache.loaded = true ∧
      cache.fingerprint = DirectoryFingerprint.known files ∧
      DirectoryFingerprint.known files ≠ DirectoryFingerprint.unknown)) :
    ensure_cache_fresh (fun _ => some files) cache =
      (replace_with_snapshot (scan_records (some files))
        (DirectoryFingerprint.known files), 1) := by
  rw [ensure_cache_fresh]
  show (if cache.loaded = true ∧
      cache.fingerprint = DirectoryFingerprint.known files ∧
      DirectoryFingerprint.known files ≠ DirectoryFingerprint.unknown then
      (cache, 0)
    else refresh_cache (DirectoryFingerprint.known files)
      (fun _ => some files) 1 cache) = _
  rw [if_neg hcond, refresh_cache,
    if_neg (show ¬ DirectoryFingerprint.known files =
      DirectoryFingerprint.missing from nofun)]
  show (if DirectoryFingerprint.known files = DirectoryFingerprint.known files
      then (replace_with_snapshot (scan_records (some files))
        (DirectoryFingerprint.known files), 1)
      else if (2 : Nat) = 0 then
        (replace_with_snapshot (scan_records (some files))
          DirectoryFingerprint.unknown, 1)
      else ((refreshAttempts 2 (fun _ => some files) 3 cache).1,
        (refreshAttempts 2 (fun _ => some files) 3 cache).2 + 1)) = _
  rw [if_pos rfl]

/-- The ensure-hit path returns the cache untouched with no scan. -/
theorem ensure_cache_fresh_hit (cache : ProjectCache) (obs : Nat → DiskObs)
    (hcond : cache.loaded = true ∧
      cache.fingerprint = collectFingerprint (obs 0) ∧
      collectFingerprint (obs 0) ≠ DirectoryFingerprint.unknown) :
    ensure_cache_fresh obs cache = (cache, 0) := by
  rw [ensure_cache_fresh]
  exact if_pos hcond



/-- The store patch never changes the `loaded` flag. -/
theorem update_cache_after_store_loaded (cache : ProjectCache)
    (record : ProjectRecord) (metadata : Option ProjectRecord) :
    (update_cache_after_store cache record metadata).loaded = cache.loaded := by
  by_cases h : cache.loaded = false <;> simp [update_cache_after_store, h]

/-- On a loaded cache the store patch inserts the record. -/
theorem update_cache_after_store_records (cache : ProjectCache)
    (record : ProjectRecord) (metadata : Option ProjectRecord)
    (h : ¬ cache.loaded = false) :
    (update_cache_after_store cache record metadata).records_by_id =
      assocSet cache.records_by_id record.id record := by
  simp [update_cache_after_store, h]

/-- On a loaded cache the store patch points the record's path at its id. -/
theorem update_cache_after_store_path_lookup (cache : ProjectCache)
    (record : ProjectRecord) (metadata : Option ProjectRecord)
    (h : ¬ cache.loaded = false) :
    lookupA (update_cache_after_store cache record metadata).path_index
      record.path = some record.id := by
  simp only [update_cache_after_store, if_neg h]
  exact lookupA_assocSet_self _ _ _

/-- The delete patch never changes the `loaded` flag. -/
theorem update_cache_after_delete_loaded (cache : ProjectCache) (id : String) :
    (update_cache_after_delete cache id).loaded = cache.loaded := by
  by_cases h : cache.loaded = false <;> simp [update_cache_after_delete, h]

/-- On a loaded cache the delete patch removes the record binding. -/
theorem update_cache_after_delete_records (cache : ProjectCache) (id : String)
    (h : ¬ cache.loaded = false) :
    (update_cache_after_delete cache id).records_by_id =
      assocDel cache.records_by_id id := by
  simp [update_cache_after_delete, h]

/-- After a successful `store` of `r` on a quiescent directory, the refreshed
cache maps `r.id` to `r` and `r.path` to `r.id` — whether the read is served
from the patched cache or from a rescan. -/
theorem store_fresh_lookups (s : RegistryState) (r : ProjectRecord)
    (hdwf : DiskWF s.files) (hrid : ¬ strTrim r.id = "")
    (hpath : ∀ f ∈ s.files, f.2.path = r.path → f.1 = r.id) :
    lookupA (ensure_cache_fresh (fun _ => some (assocSet s.files r.id r))
        (update_cache_after_store s.cache r (some r))).1.records_by_id r.id =
      some r ∧
    lookupA (ensure_cache_fresh (fun _ => some (assocSet s.files r.id r))
        (update_cache_after_store s.cache r (some r))).1.path_index r.path =
      some r.id := by
  set files' := assocSet s.files r.id r with hf
  set c' := update_cache_after_store s.cache r (some r) with hc
  by_cases hcond : (c'.loaded = true ∧
      c'.fingerprint = DirectoryFingerprint.known files' ∧
      DirectoryFingerprint.known files' ≠ DirectoryFingerprint.unknown)
  · rw [ensure_cache_fresh_hit c' (fun _ => some files') hcond]
    cases hld : s.cache.loaded with
    | false =>
        exfalso
        have hl : c'.loaded = false := by
          rw [hc, update_cache_after_store_loaded]
          exact hld
        rw [hl] at hcond
        exact Bool.noConfusion hcond.1
    | true =>
        have hnl : ¬ s.cache.loaded = false := by simp [hld]
        constructor
        · show lookupA c'.records_by_id r.id = some r
          rw [hc, update_cache_after_store_records _ _ _ hnl]
          exact lookupA_assocSet_self _ _ _
        · show lookupA c'.path_index r.path = some r.id
          rw [hc]
          exact update_cache_after_store_path_lookup _ _ _ hnl
  · rw [ensure_cache_fresh_miss c' files' hcond]
    have hmem : (r.id, r) ∈ files'.map scanRecKey := by
      refine List.mem_map.mpr ⟨(r.id, r), mem_assocSet_self _ _ _, ?_⟩
      show ((load_from_path r.id r).id, load_from_path r.id r) = (r.id, r)
      rw [load_from_path, if_neg (by simpa using hrid)]
    have hold : ∀ f ∈ s.files, f.1 ≠ r.id →
        scanRecKey f = (f.1, f.2) ∧ scanPathKey f = (f.2.path, f.1) := by
      intro f hf _
      obtain ⟨hid, hnb⟩ := hdwf.1 f hf
      have hload : load_from_path f.1 f.2 = f.2 := by
        rw [load_from_path, if_neg (by simpa using hnb)]
      constructor
      · show ((load_from_path f.1 f.2).id, load_from_path f.1 f.2) = (f.1, f.2)
        rw [hload, hid]
      · show ((load_from_path f.1 f.2).path, (load_from_path f.1 f.2).id) =
          (f.2.path, f.1)
        rw [hload, hid]
    constructor
    · show lookupA (scan_records (some files')).records_by_id r.id = some r
      rw [scan_records_records_eq, foldl_assocSet_lookup_nil]
      refine lookupA_of_unique_reverse _ _ _ hmem ?_
      intro b hb hb1
      obtain ⟨f, hfmem, hfb⟩ := List.mem_map.mp hb
      rcases mem_assocSet_nodup s.files r.id r hdwf.2 f hfmem with heq | ⟨hfs, hfne⟩
      · rw [heq] at hfb
        rw [← hfb]
        show load_from_path r.id r = r
        rw [load_from_path, if_neg (by simpa using hrid)]
      · have := (hold f hfs hfne).1
        rw [this] at hfb
        rw [← hfb] at hb1
        exact absurd hb1 hfne
    · show lookupA (scan_records (some files')).path_index r.path = some r.id
      rw [scan_records_paths_eq, foldl_assocSet_lookup_nil]
      have hmemP : (r.path, r.id) ∈ files'.map scanPathKey := by
        refine List.mem_map.mpr ⟨(r.id, r), mem_assocSet_self _ _ _, ?_⟩
        show ((load_from_path r.id r).path, (load_from_path r.id r).id) =
          (r.path, r.id)
        rw [load_from_path, if_neg (by simpa using hrid)]
      refine lookupA_of_unique_reverse _ _ _ hmemP ?_
      intro b hb hb1
      obtain ⟨f, hfmem, hfb⟩ := List.mem_map.mp hb
      rcases mem_assocSet_nodup s.files r.id r hdwf.2 f hfmem with heq | ⟨hfs, hfne⟩
      · rw [heq] at hfb
        rw [← hfb]
        show ((load_from_path r.id r).path, (load_from_path r.id r).id).2 = r.id
        rw [load_from_path, if_neg (by simpa using hrid)]
      · have := (hold f hfs hfne).2
        rw [this] at hfb
        rw [← hfb] at hb1
        exact absurd (hpath f hfs hb1) hfne


/-- After a successful `delete` of `id` on a quiescent directory, the
refreshed cache has no binding for `id`, and every binding it does have keys
a record by that record's own id. -/
theorem delete_fresh_lookups (s : RegistryState) (id : String)
    (hdwf : DiskWF s.files) (hcwf : CacheWF s.cache) :
    lookupA (ensure_cache_fresh (fun _ => some (assocDel s.files id))
        (update_cache_after_delete s.cache id)).1.records_by_id id = none ∧
    (∀ (id' : String) (other : ProjectRecord),
      lookupA (ensure_cache_fresh (fun _ => some (assocDel s.files id))
        (update_cache_after_delete s.cache id)).1.records_by_id id' =
          some other →
      other.id = id') := by
  set files'' := assocDel s.files id with hfis
  set c'' := update_cache_after_delete s.cache id with hc
  by_cases hcond : (c''.loaded = true ∧
      c''.fingerprint = DirectoryFingerprint.known files'' ∧
      DirectoryFingerprint.known files'' ≠ DirectoryFingerprint.unknown)
  · rw [ensure_cache_fresh_hit c'' (fun _ => some files'') hcond]
    cases hld : s.cache.loaded with
    | false =>
        exfalso
        have hl : c''.loaded = false := by
          rw [hc, update_cache_after_delete_loaded]
          exact hld
        rw [hl] at hcond
        exact Bool.noConfusion hcond.1
    | true =>
        have hnl : ¬ s.cache.loaded = false := by simp [hld]
        constructor
        · show lookupA c''.records_by_id id = none
          rw [hc, update_cache_after_delete_records _ _ hnl]
          exact lookupA_assocDel_self _ _ hcwf.2
        · intro id' other hlu
          have hlu' : lookupA (assocDel s.cache.records_by_id id) id' =
              some other := by
            rw [← update_cache_after_delete_records s.cache id hnl, ← hc]
            exact hlu
          have hmem := mem_assocDel _ _ _ (lookupA_mem _ _ _ hlu')
          exact hcwf.1 (id', other) hmem
  · rw [ensure_cache_fresh_miss c'' files'' hcond]
    constructor
    · show lookupA (scan_records (some files'')).records_by_id id = none
      rw [scan_records_records_eq, foldl_assocSet_lookup_nil]
      refine lookupA_eq_none_of_forall _ _ ?_
      intro b hb
      obtain ⟨f, hfmem, hfb⟩ := List.mem_map.mp (List.mem_reverse.mp hb)
      have hfs : f ∈ s.files := mem_assocDel _ _ _ hfmem
      obtain ⟨hid, hnb⟩ := hdwf.1 f hfs
      have hb1 : b.1 = f.1 := by
        rw [← hfb]
        show (load_from_path f.1 f.2).id = f.1
        rw [load_from_path, if_neg (by simpa using hnb), hid]
      rw [hb1]
      exact mem_assocDel_ne s.files id hdwf.2 f hfmem
    · intro id' other hlu
      have hlu' : lookupA (scan_records (some files'')).records_by_id id' =
          some other := hlu
      rw [scan_records_records_eq] at hlu'
      have hmem := lookupA_mem _ _ _ hlu'
      rcases mem_foldl_assocSet _ _ _ hmem with h | h
      · obtain ⟨f, _, hfb⟩ := List.mem_map.mp h
        have h1 : (load_from_path f.1 f.2).id = id' :=
          congrArg Prod.fst hfb
        have h2 : load_from_path f.1 f.2 = other :=
          congrArg Prod.snd hfb
        rw [← h2, h1]
      · exact absurd h (List.not_mem_nil _)

/-- C7: after `registry.store(r)` succeeds, `registry.load(r.id)` yields a
record equal to `r` and `registry.find_by_path(r.path)` yields `Some(r)`;
and for an id whose record file exists, after `registry.delete(id)` succeeds,
`registry.load(id)` yields `NotFound` and `registry.find_by_path` of the
deleted record's path no longer yields that record. Both under the
filesystem/HashMap well-formedness facts (`DiskWF`, `CacheWF`), a non-blank
stored id, path-uniqueness on disk, and a quiescent directory
(`seqObs`: no concurrent external mutation). -/
theorem c7_store_delete_roundtrip (s : RegistryState) (r : ProjectRecord)
    (id : String) :
    (DiskWF s.files → s.dir_exists = true → ¬ strTrim r.id = "" →
      (∀ f ∈ s.files, f.2.path = r.path → f.1 = r.id) →
      ∀ s', registry_store s r = .ok s' →
        (registry_load (seqObs s') s'.cache r.id).2 = .ok r ∧
          (registry_find_by_path (seqObs s') s'.cache r.path).2 = some r) ∧
    (DiskWF s.files → CacheWF s.cache → s.dir_exists = true →
      ∀ rec, lookupA s.files id = some rec →
      ∀ s'', registry_delete s id = .ok s'' →
        (registry_load (seqObs s'') s''.cache id).2 =
            .error (.notFound id) ∧
          (registry_find_by_path (seqObs s'') s''.cache rec.path).2 ≠
            some rec) := by
  constructor
  · intro hdwf hdir hrid hpath s' hstore
    have hs' : s' =
        { dir_exists := true, files := assocSet s.files r.id r,
          cache := update_cache_after_store s.cache r (some r) } := by
      have h := hstore
      rw [registry_store, if_neg (by simp [hdir])] at h
      exact (Except.ok.inj h).symm
    subst hs'
    have key := store_fresh_lookups s r hdwf hrid hpath
    constructor
    · rw [registry_load_snd]
      show (match lookupA (ensure_cache_fresh
          (fun _ => some (assocSet s.files r.id r))
          (update_cache_after_store s.cache r (some r))).1.records_by_id r.id with
        | some record => Except.ok record
        | none => Except.error (LoadError.notFound r.id)) = Except.ok r
      rw [key.1]
    · rw [registry_find_by_path_snd]
      show (match lookupA (ensure_cache_fresh
          (fun _ => some (assocSet s.files r.id r))
          (update_cache_after_store s.cache r (some r))).1.path_index r.path with
        | some i => lookupA (ensure_cache_fresh
            (fun _ => some (assocSet s.files r.id r))
            (update_cache_after_store s.cache r (some r))).1.records_by_id i
        | none => none) = some r
      rw [key.2]
      exact key.1
  · intro hdwf hcwf hdir rec hrec s'' hdel
    have hs'' : s'' =
        { dir_exists := s.dir_exists,
          files := assocDel s.files id,
          cache := update_cache_after_delete s.cache id } := by
      have h := hdel
      rw [registry_delete, if_pos ⟨hdir, by rw [hrec]; rfl⟩] at h
      exact (Except.ok.inj h).symm
    subst hs''
    have hobs : (seqObs
          { dir_exists := s.dir_exists,
            files := assocDel s.files id,
            cache := update_cache_after_delete s.cache id }) =
        (fun _ => some (assocDel s.files id)) := by
      funext k
      show diskOf _ = _
      rw [diskOf]
      show (if s.dir_exists = true then _ else _) = _
      rw [if_pos hdir]
    have key := delete_fresh_lookups s id hdwf hcwf
    have hrecid : rec.id = id := (hdwf.1 (id, rec) (lookupA_mem _ _ _ hrec)).1
    constructor
    · rw [registry_load_snd, hobs]
      show (match lookupA (ensure_cache_fresh
          (fun _ => some (assocDel s.files id))
          (update_cache_after_delete s.cache id)).1.records_by_id id with
        | some record => Except.ok record
        | none => Except.error (LoadError.notFound id)) =
          Except.error (LoadError.notFound id)
      rw [key.1]
    · rw [registry_find_by_path_snd, hobs]
      show (match lookupA (ensure_cache_fresh
          (fun _ => some (assocDel s.files id))
          (update_cache_after_delete s.cache id)).1.path_index rec.path with
        | some i => lookupA (ensure_cache_fresh
            (fun _ => some (assocDel s.files id))
            (update_cache_after_delete s.cache id)).1.records_by_id i
        | none => none) ≠ some rec
      cases hpi : lookupA (ensure_cache_fresh
          (fun _ => some (assocDel s.files id))
          (update_cache_after_delete s.cache id)).1.path_index rec.path with
      | none => exact fun hcontra => Option.noConfusion hcontra
      | some id' =>
          intro hcontra
          have hlu : lookupA (ensure_cache_fresh
              (fun _ => some (assocDel s.files id))
              (update_cache_after_delete s.cache id)).1.records_by_id id' =
              some rec := hcontra
          have hid' : rec.id = id' := key.2 id' rec hlu
          have : id' = id := by rw [← hid', hrecid]
          rw [this] at hlu
          rw [key.1] at hlu
          exact Option.noConfusion hlu


/-- Witness for C7: store `c7record` into an empty registry, read it back by
id and by path; then delete it and observe `NotFound` and the path lookup no
longer yielding it. -/
theorem c7_store_delete_roundtrip_witness :
    (registry_load (seqObs c7stored) c7stored.cache "p1").2 = .ok c7record ∧
      (registry_find_by_path (seqObs c7stored) c7stored.cache
        ["w", "proj"]).2 = some c7record ∧
      (registry_load (seqObs c7deleted) c7deleted.cache "p1").2 =
        .error (.notFound "p1") ∧
      (registry_find_by_path (seqObs c7deleted) c7deleted.cache
        ["w", "proj"]).2 ≠ some c7record := by
  have hdwf0 : DiskWF c7state.files :=
    ⟨fun f hf => absurd hf (List.not_mem_nil f), List.nodup_nil⟩
  have hstore := (c7_store_delete_roundtrip c7state c7record "p1").1 hdwf0
    rfl (by decide) (fun f hf => absurd hf (List.not_mem_nil f))
    c7stored rfl
  have hdwf1 : DiskWF c7stored.files := by
    constructor
    · intro f hf
      have : f = ("p1", c7record) := List.mem_singleton.mp hf
      rw [this]
      exact ⟨rfl, by decide⟩
    · show (["p1"] : List String).Nodup
      simp
  have hcwf1 : CacheWF c7stored.cache := by
    constructor
    · intro b hb
      exact absurd hb (List.not_mem_nil b)
    · exact List.nodup_nil
  have hdelete := (c7_store_delete_roundtrip c7stored c7record "p1").2 hdwf1
    hcwf1 rfl c7record rfl c7deleted rfl
  exact ⟨hstore.1, hstore.2, hdelete.1, hdelete.2⟩


/-- One-step unfolding of the retry loop. -/
theorem refreshAttempts_step (rem : Nat) (obs : Nat → DiskObs) (k : Nat)
    (cache : ProjectCache) :
    refreshAttempts (rem + 1) obs k cache =
      if (scan_records (obs k)).fingerprint =
          collectFingerprint (obs (k + 1)) then
        (replace_with_snapshot (scan_records (obs k))
          (collectFingerprint (obs (k + 1))), 1)
      else if rem = 0 then
        (replace_with_snapshot (scan_records (obs k))
          DirectoryFingerprint.unknown, 1)
      else ((refreshAttempts rem obs (k + 2) cache).1,
        (refreshAttempts rem obs (k + 2) cache).2 + 1) := rfl

/-- The retry loop always scans at least once. -/
theorem refreshAttempts_scans_pos (rem : Nat) (obs : Nat → DiskObs) (k : Nat)
    (cache : ProjectCache) : 1 ≤ (refreshAttempts (rem + 1) obs k cache).2 := by
  rw [refreshAttempts_step]
  split
  · exact Nat.le_refl 1
  · split
    · exact Nat.le_refl 1
    · exact Nat.le_add_left 1 _

/-- C8: before every read (`list`, `load`, `find_by_path`) the registry runs
`ensure_cache_fresh` on a freshly gathered fingerprint; when the cached
fingerprint is loaded, equals the current one and is not `Unknown`, the
cached view is returned with no directory scan; otherwise the directory is
re-scanned with a confirming second fingerprint, the snapshot being installed
only on an attempt whose two fingerprints agree; after 3 disagreeing attempts
the (third) snapshot is installed with fingerprint `Unknown`; and a cached
`Unknown` fingerprint never takes the cached-view path, forcing a refresh —
with at least one scan whenever the directory exists. -/
theorem c8_fingerprint_refresh_discipline (obs : Nat → DiskObs)
    (cache : ProjectCache) (id : String) (target : List String) :
    ((registry_list obs cache).1 = ensure_cache_fresh obs cache ∧
      (registry_load obs cache id).1 = ensure_cache_fresh obs cache ∧
      (registry_find_by_path obs cache target).1 =
        ensure_cache_fresh obs cache) ∧
    ((cache.loaded = true ∧
        cache.fingerprint = collectFingerprint (obs 0) ∧
        collectFingerprint (obs 0) ≠ DirectoryFingerprint.unknown) →
      ensure_cache_fresh obs cache = (cache, 0)) ∧
    (¬ (cache.loaded = true ∧
        cache.fingerprint = collectFingerprint (obs 0) ∧
        collectFingerprint (obs 0) ≠ DirectoryFingerprint.unknown) →
      collectFingerprint (obs 0) ≠ DirectoryFingerprint.missing →
      ((scan_records (obs 1)).fingerprint = collectFingerprint (obs 2) →
        ensure_cache_fresh obs cache =
          (replace_with_snapshot (scan_records (obs 1))
            (collectFingerprint (obs 2)), 1)) ∧
      (¬ (scan_records (obs 1)).fingerprint = collectFingerprint (obs 2) →
        (scan_records (obs 3)).fingerprint = collectFingerprint (obs 4) →
        ensure_cache_fresh obs cache =
          (replace_with_snapshot (scan_records (obs 3))
            (collectFingerprint (obs 4)), 2)) ∧
      (¬ (scan_records (obs 1)).fingerprint = collectFingerprint (obs 2) →
        ¬ (scan_records (obs 3)).fingerprint = collectFingerprint (obs 4) →
        (scan_records (obs 5)).fingerprint = collectFingerprint (obs 6) →
        ensure_cache_fresh obs cache =
          (replace_with_snapshot (scan_records (obs 5))
            (collectFingerprint (obs 6)), 3)) ∧
      (¬ (scan_records (obs 1)).fingerprint = collectFingerprint (obs 2) →
        ¬ (scan_records (obs 3)).fingerprint = collectFingerprint (obs 4) →
        ¬ (scan_records (obs 5)).fingerprint = collectFingerprint (obs 6) →
        ensure_cache_fresh obs cache =
          (replace_with_snapshot (scan_records (obs 5))
            DirectoryFingerprint.unknown, 3))) ∧
    (cache.fingerprint = DirectoryFingerprint.unknown →
      ensure_cache_fresh obs cache =
        refresh_cache (collectFingerprint (obs 0)) obs 1 cache ∧
      (∀ files, obs 0 = some files →
        1 ≤ (ensure_cache_fresh obs cache).2)) := by
  refine ⟨⟨rfl, rfl, rfl⟩, ?_, ?_, ?_⟩
  · exact fun hcond => ensure_cache_fresh_hit cache obs hcond
  · intro hmiss hnm
    have hE : ensure_cache_fresh obs cache =
        refresh_cache (collectFingerprint (obs 0)) obs 1 cache := by
      rw [ensure_cache_fresh]
      exact if_neg hmiss
    have hR : refresh_cache (collectFingerprint (obs 0)) obs 1 cache =
        refreshAttempts 3 obs 1 cache := by
      rw [refresh_cache]
      exact if_neg hnm
    refine ⟨fun hA0 => ?_, fun hA0 hA1 => ?_, fun hA0 hA1 hA2 => ?_,
      fun hA0 hA1 hA2 => ?_⟩
    · rw [hE, hR, show (3 : Nat) = 2 + 1 from rfl, refreshAttempts_step,
        if_pos hA0]
    · rw [hE, hR, show (3 : Nat) = 2 + 1 from rfl, refreshAttempts_step,
        if_neg hA0, if_neg (show ¬ (2 : Nat) = 0 by decide),
        show (2 : Nat) = 1 + 1 from rfl, refreshAttempts_step, if_pos hA1]
    · rw [hE, hR, show (3 : Nat) = 2 + 1 from rfl, refreshAttempts_step,
        if_neg hA0, if_neg (show ¬ (2 : Nat) = 0 by decide),
        show (2 : Nat) = 1 + 1 from rfl, refreshAttempts_step, if_neg hA1,
        if_neg (show ¬ (1 : Nat) = 0 by decide),
        show (1 : Nat) = 0 + 1 from rfl, refreshAttempts_step, if_pos hA2]
    · rw [hE, hR, show (3 : Nat) = 2 + 1 from rfl, refreshAttempts_step,
        if_neg hA0, if_neg (show ¬ (2 : Nat) = 0 by decide),
        show (2 : Nat) = 1 + 1 from rfl, refreshAttempts_step, if_neg hA1,
        if_neg (show ¬ (1 : Nat) = 0 by decide),
        show (1 : Nat) = 0 + 1 from rfl, refreshAttempts_step, if_neg hA2,
        if_pos rfl]
  · intro hunk
    have hmiss : ¬ (cache.loaded = true ∧
        cache.fingerprint = collectFingerprint (obs 0) ∧
        collectFingerprint (obs 0) ≠ DirectoryFingerprint.unknown) := by
      rintro ⟨_, h2, h3⟩
      exact h3 (h2.symm.trans hunk)
    have hE : ensure_cache_fresh obs cache =
        refresh_cache (collectFingerprint (obs 0)) obs 1 cache := by
      rw [ensure_cache_fresh]
      exact if_neg hmiss
    refine ⟨hE, fun files hf => ?_⟩
    rw [hE]
    have hnm : ¬ collectFingerprint (obs 0) = DirectoryFingerprint.missing := by
      rw [hf]
      exact nofun
    rw [refresh_cache, if_neg hnm, show (3 : Nat) = 2 + 1 from rfl]
    exact refreshAttempts_scans_pos 2 obs 1 cache


/-- Witness for C8: the stable stream with a matching cache takes the
cached-view path with zero scans; the flipping stream defeats all three
attempts and installs the third snapshot with fingerprint `Unknown`; a cached
`Unknown` fingerprint forces a refresh with at least one scan. -/
theorem c8_fingerprint_refresh_discipline_witness :
    ensure_cache_fresh c8obsStable c8cacheHit = (c8cacheHit, 0) ∧
      ensure_cache_fresh c8obsFlip c8cacheCold =
        (replace_with_snapshot (scan_records (c8obsFlip 5))
          DirectoryFingerprint.unknown, 3) ∧
      1 ≤ (ensure_cache_fresh c8obsStable c8cacheUnknown).2 := by
  refine ⟨?_, ?_, ?_⟩
  · exact (c8_fingerprint_refresh_discipline c8obsStable c8cacheHit "x" []).2.1
      ⟨rfl, rfl, by decide⟩
  · exact (((c8_fingerprint_refresh_discipline c8obsFlip c8cacheCold "x"
      []).2.2.1 (by decide) (by decide)).2.2.2 (by decide) (by decide)
      (by decide))
  · exact ((c8_fingerprint_refresh_discipline c8obsStable c8cacheUnknown "x"
      []).2.2.2 rfl).2 [("p1", c8record)] rfl

end MCPCenter
